import Mathlib

/-!
Verification of the relational-mapping / JSON:API document-assembly core of
the `jsonrestapi` framework.

The definitions below are a shallow embedding of the JavaScript sources:

* `src/plugins/core/lib/knex-field-helpers.js` (`buildFieldSelection`,
  `isNonDatabaseField`),
* `src/plugins/core/lib/knex-json-api-helpers.js` (`toJsonApi`),
* `src/plugins/core/lib/knex-json-api-transformers.js` (`toJsonApiRecord`,
  `buildJsonApiResponse`'s per-record processing,
  `toJsonApiRecordWithBelongsTo`, `processBelongsToRelationships`),
* `src/plugins/core/rest-api-plugin-methods/delete-relationship.js`
  (`deleteRelationshipMethod`).

JavaScript objects are modelled as association lists `List (String × α)`
(first-match lookup, assignment overwrites in place), database / JSON values
as the inductive `DBVal` (with `vNull` as SQL/JSON null and absence of a key
as JS `undefined`), and JS `Set`s as duplicate-free insertion-ordered lists.
-/

namespace JsonRestApi

/-- A database / JSON scalar value.  `vNull` is SQL (or JSON) `null`; a key
that is absent from a record plays the role of JS `undefined`. -/
inductive DBVal where
  | vNull : DBVal
  | vInt  : Int → DBVal
  | vStr  : String → DBVal
  | vBool : Bool → DBVal
  deriving DecidableEq, Repr

open DBVal

/-- JavaScript truthiness of a `DBVal` (`null`, `0`, `""`, `false` are falsy). -/
def truthy : DBVal → Bool
  | vNull => false
  | vInt n => n != 0
  | vStr s => s != ""
  | vBool b => b

/-- JavaScript truthiness of an optional value (`undefined` is falsy). -/
def truthyO : Option DBVal → Bool
  | some v => truthy v
  | none => false

/-- JavaScript `String(v)` for a `DBVal`. -/
def jsString : DBVal → String
  | vNull => "null"
  | vInt n => toString n
  | vStr s => s
  | vBool b => if b then "true" else "false"

/-- JavaScript `String(v)` where `v` may be `undefined` (absent). -/
def jsStringO : Option DBVal → String
  | some v => jsString v
  | none => "undefined"

/-- First-match association-list lookup: JS property read `obj[k]`,
`none` meaning the property is absent (`undefined`). -/
def lookupA {α : Type} (l : List (String × α)) (k : String) : Option α :=
  (l.find? (fun p => p.1 = k)).map (·.2)

/-- JS property assignment `obj[k] = v`: overwrite in place if the key is
present, otherwise append (insertion order is preserved). -/
def setKeyA {α : Type} (l : List (String × α)) (k : String) (v : α) : List (String × α) :=
  if (lookupA l k).isSome then
    l.map (fun p => if p.1 = k then (k, v) else p)
  else
    l ++ [(k, v)]

/-- A database record / plain JS object of scalar values. -/
abbrev Record := List (String × DBVal)

/-- Field access on a record (`none` = column absent). -/
def getField (r : Record) (k : String) : Option DBVal := lookupA r k

/-- Field access through an optional field name: JS `record[def.someField]`
when `def.someField` may itself be `undefined`. -/
def getFieldO (r : Record) (k : Option String) : Option DBVal :=
  match k with
  | some k => getField r k
  | none => none

/-- `Set.add`: append if not already present (JS `Set` keeps insertion order). -/
def addU (l : List String) (x : String) : List String :=
  if x ∈ l then l else l ++ [x]

/-! ### Schema model

Mirrors the objects destructured from `scope.vars.schemaInfo`:
`schema.structure` (field name → field definition), `computed`, `virtual`,
`schemaRelationships` and `idProperty`. -/

/-- A column definition from `schema.structure`.  Only the properties the
embedded functions read are modelled: `belongsTo` (target type), `as`
(relationship alias), `hidden`, `normallyHidden`. -/
structure FieldDef where
  belongsTo : Option String := none
  as : Option String := none
  hidden : Bool := false
  normallyHidden : Bool := false
  deriving DecidableEq, Repr

/-- A computed-field definition (`dependencies` is the list of column names
the compute function reads). -/
structure ComputedDef where
  dependencies : List String := []
  deriving DecidableEq, Repr

/-- An entry of `schemaInfo.schemaRelationships`; only the polymorphic
`belongsToPolymorphic` shape with its `typeField`/`idField` is read by the
embedded functions. -/
structure PolyRel where
  belongsToPolymorphic : Bool := false
  typeField : Option String := none
  idField : Option String := none
  deriving DecidableEq, Repr

/-- The slice of `scope.vars.schemaInfo` the embedded functions read.
`struct` is `schema.structure` (`getSchemaStructure` unwraps a Schema object
to this plain mapping). -/
structure SchemaInfo where
  struct : List (String × FieldDef) := []
  computed : List (String × ComputedDef) := []
  virtual : List String := []
  rels : List (String × PolyRel) := []
  idProperty : String := "id"
  deriving DecidableEq, Repr

/-- Field-definition lookup `schemaStructure[field]`. -/
def lookupField (si : SchemaInfo) (f : String) : Option FieldDef := lookupA si.struct f

/-- Computed-definition lookup `computedFields[name]`. -/
def lookupComputed (si : SchemaInfo) (f : String) : Option ComputedDef := lookupA si.computed f

/-- `isNonDatabaseField` (knex-field-helpers.js:20): the field is computed or
virtual, hence not a database column. -/
def isNonDatabaseField (si : SchemaInfo) (f : String) : Bool :=
  (lookupComputed si f).isSome || f ∈ si.virtual

/-! ### buildFieldSelection (knex-field-helpers.js:69-233) -/

/-- Result of `buildFieldSelection`. -/
structure FieldSelection where
  fieldsToSelect : List String
  requestedFields : Option (List String)
  computedDependencies : List String
  idProperty : String
  deriving DecidableEq, Repr

/-- The entry added for the identity column: `id`, or `<idProperty> as id`
when the identity property is aliased (knex-field-helpers.js:86-92). -/
def idSelect (idProperty : String) : String :=
  if idProperty ≠ "id" then idProperty ++ " as id" else "id"

/-- Error message of knex-field-helpers.js:121. -/
def unknownFieldMsg (f scopeName : String) : String :=
  "Unknown sparse field " ++ "'" ++ f ++ "'" ++ " requested for " ++ "'" ++ scopeName ++ "'"

/-- The sparse-fieldset loop over the requested names
(knex-field-helpers.js:114-128): skip computed/virtual names, throw on an
unknown name, silently drop hidden fields, select the rest. -/
def sparseReqLoop (si : SchemaInfo) (scopeName : String) :
    List String → List String → Except String (List String)
  | [], fts => .ok fts
  | f :: rest, fts =>
    if isNonDatabaseField si f then sparseReqLoop si scopeName rest fts
    else
      match lookupField si f with
      | none => .error (unknownFieldMsg f scopeName)
      | some fd =>
        if fd.hidden then sparseReqLoop si scopeName rest fts
        else sparseReqLoop si scopeName rest (addU fts f)

/-- Inner loop of knex-field-helpers.js:137-148: add each dependency that
exists and is not hidden; record it in `computedDependencies` when it was not
explicitly requested. -/
def depsAddLoop (si : SchemaInfo) (requested : List String) :
    List String → List String × List String → List String × List String
  | [], acc => acc
  | dep :: rest, (fts, cds) =>
    match lookupField si dep with
    | some dd =>
      if dd.hidden then depsAddLoop si requested rest (fts, cds)
      else
        depsAddLoop si requested rest
          (addU fts dep, if dep ∈ requested then cds else addU cds dep)
    | none => depsAddLoop si requested rest (fts, cds)

/-- Loop of knex-field-helpers.js:134-150 over the requested computed fields. -/
def reqComputedLoop (si : SchemaInfo) (requested : List String) :
    List String → List String × List String → List String × List String
  | [], acc => acc
  | c :: rest, acc =>
    match lookupComputed si c with
    | some cd => reqComputedLoop si requested rest (depsAddLoop si requested cd.dependencies acc)
    | none => reqComputedLoop si requested rest acc

/-- The `normallyHidden` backward-compatibility block
(knex-field-helpers.js:153-165). -/
def nhCompatLoop (requested : List String) :
    List (String × FieldDef) → List String × List String → List String × List String
  | [], acc => acc
  | (f, fd) :: rest, (fts, cds) =>
    if fd.normallyHidden && !fd.hidden && f ∉ fts then
      nhCompatLoop requested rest
        (fts ++ [f], if f ∈ requested then cds else addU cds f)
    else
      nhCompatLoop requested rest (fts, cds)

/-- The no-sparse-fieldset loop over all schema fields
(knex-field-helpers.js:169-179): all fields that are neither hidden nor
normally hidden. -/
def visibleLoop : List (String × FieldDef) → List String → List String
  | [], fts => fts
  | (f, fd) :: rest, fts =>
    if fd.hidden then visibleLoop rest fts
    else if fd.normallyHidden then visibleLoop rest fts
    else visibleLoop rest (addU fts f)

/-- Inner dependency loop of knex-field-helpers.js:187-198 (no sparse
fieldsets): fetch every existing non-hidden dependency, recording the
normally-hidden ones for later removal. -/
def allDepsAddLoop (si : SchemaInfo) :
    List String → List String × List String → List String × List String
  | [], acc => acc
  | dep :: rest, (fts, cds) =>
    match lookupField si dep with
    | some dd =>
      if dd.hidden then allDepsAddLoop si rest (fts, cds)
      else
        allDepsAddLoop si rest
          (addU fts dep, if dd.normallyHidden then addU cds dep else cds)
    | none => allDepsAddLoop si rest (fts, cds)

/-- Loop of knex-field-helpers.js:185-199 over all computed fields. -/
def allComputedLoop (si : SchemaInfo) :
    List (String × ComputedDef) → List String × List String → List String × List String
  | [], acc => acc
  | (_, cd) :: rest, acc => allComputedLoop si rest (allDepsAddLoop si cd.dependencies acc)

/-- knex-field-helpers.js:203-207: always select the `belongsTo` foreign-key
columns that are not hidden. -/
def fkLoop : List (String × FieldDef) → List String → List String
  | [], fts => fts
  | (f, fd) :: rest, fts =>
    if fd.belongsTo.isSome && !fd.hidden then fkLoop rest (addU fts f)
    else fkLoop rest fts

/-- JS truthiness of an optional field-name string. -/
def truthyStr : Option String → Bool
  | some s => s != ""
  | none => false

/-- `if (relDef.someField) set.add(relDef.someField)`: add the field name
when it is truthy (present and non-empty). -/
def addTruthyField : Option String → List String → List String
  | some s, fts => if s != "" then addU fts s else fts
  | none, fts => fts

/-- knex-field-helpers.js:210-217: always select the polymorphic
`typeField`/`idField` columns of the schema relationships. -/
def polyFieldLoop : List (String × PolyRel) → List String → List String
  | [], fts => fts
  | (_, rd) :: rest, fts =>
    if rd.belongsToPolymorphic then
      polyFieldLoop rest (addTruthyField rd.idField (addTruthyField rd.typeField fts))
    else polyFieldLoop rest fts

/-- The effective sparse-fieldset request: `null` unless a non-empty list of
field names was requested (knex-field-helpers.js:105-111 checks
`requested && requested.length > 0`). -/
def sparseReq (req : Option (List String)) : Option (List String) :=
  match req with
  | some l => if l = [] then none else some l
  | none => none

/-- The sparse-fieldset pipeline after the requested loop
(knex-field-helpers.js:130-233): computed-field dependencies, the
`normallyHidden` compatibility block (only when a computed field was
requested), then the always-included foreign-key and polymorphic columns. -/
def sparseRest (si : SchemaInfo) (requested fts1 : List String) : FieldSelection :=
  let rcf := requested.filter (fun f => (lookupComputed si f).isSome)
  let acc2 := reqComputedLoop si requested rcf (fts1, [])
  let acc3 := if rcf ≠ [] then nhCompatLoop requested si.struct acc2 else acc2
  ⟨polyFieldLoop si.rels (fkLoop si.struct acc3.1), some requested, acc3.2, si.idProperty⟩

/-- The no-sparse-fieldset pipeline (knex-field-helpers.js:166-233): all
visible fields, every computed field's dependencies, then the
always-included foreign-key and polymorphic columns. -/
def noSparseOut (si : SchemaInfo) (req : Option (List String)) : FieldSelection :=
  let fts1 := visibleLoop si.struct [idSelect si.idProperty]
  let acc2 := allComputedLoop si si.computed (fts1, [])
  ⟨polyFieldLoop si.rels (fkLoop si.struct acc2.1), req, acc2.2, si.idProperty⟩

/-- `buildFieldSelection` (knex-field-helpers.js:69-233).  Returns the set of
columns to `SELECT`, the requested fields, and the dependency columns fetched
only for computed fields (to be stripped from the response); throws on an
unknown sparse field. -/
def buildFieldSelection (si : SchemaInfo) (scopeName : String)
    (req : Option (List String)) : Except String FieldSelection :=
  match sparseReq req with
  | some requested =>
    match sparseReqLoop si scopeName requested [idSelect si.idProperty] with
    | .error e => .error e
    | .ok fts1 => .ok (sparseRest si requested fts1)
  | none => .ok (noSparseOut si req)

/-! ### Document assembly: `toJsonApi` and friends -/

/-- A resource-identifier object `{type, id}` as built by the transformers.
The `type` is kept as a raw value because the polymorphic branch copies the
stored discriminator value unconverted (`type: typeValue`), while `id` always
goes through JS `String(...)`. -/
structure ResId where
  type : DBVal
  id : String
  deriving DecidableEq, Repr

/-- The `links` object `{self, related}` of a relationship entry. -/
structure RelLinks where
  self : String
  related : String
  deriving DecidableEq, Repr

/-- One entry of a resource's `relationships` object: `data` (`none` models
`data: null`) and optional `links`. -/
structure RelEntry where
  data : Option ResId := none
  links : Option RelLinks := none
  deriving DecidableEq, Repr

/-- A JSON:API resource `{type, id, attributes, relationships?}` as built by
the transformers (top-level `links` are attached later and are not part of
the claims). -/
structure JRes where
  type : String
  id : String
  attributes : Record
  relationships : Option (List (String × RelEntry)) := none
  deriving DecidableEq, Repr

/-- `getForeignKeyFields(schema)`.

Modelled from the spec: the function lives in
`src/plugins/core/utils/field-utils.js`, which is not under `src/`; per spec
§3 and §4.5 the foreign-key columns are exactly the `belongsTo` columns of
the schema structure ("all foreign-key/polymorphic-discriminator columns
(these become `relationships`, never attributes)"). -/
def getForeignKeyFields (struct : List (String × FieldDef)) : List String :=
  struct.filterMap (fun p => if p.2.belongsTo.isSome then some p.1 else none)

/-- The internal bookkeeping keys stripped by `toJsonApi`
(knex-json-api-helpers.js:66-70, values from `utils/knex-constants.js` as
quoted there). -/
def internalFields : List String :=
  ["__$jsonrestapi_relationships$__", "__$jsonrestapi_metadata$__", "__$jsonrestapi_rn$__"]

/-- The fields a `toJsonApi` attribute key must avoid: foreign keys,
polymorphic fields, internal keys, the identity property and the aliased
`id` key itself. -/
def attrExcluded (struct : List (String × FieldDef)) (polyFields : List String)
    (idProperty : String) (k : String) : Bool :=
  k ∈ getForeignKeyFields struct || k ∈ polyFields || k ∈ internalFields || k = idProperty

/-- `toJsonApi` (knex-json-api-helpers.js:43-86): destructure the aliased
`id` off the record, drop foreign-key / polymorphic / internal /
identity-property keys, and return `{type, id: String(id), attributes}`. -/
def toJsonApi (struct : List (String × FieldDef)) (scopeName idProperty : String)
    (polyFields : List String) (record : Record) : JRes :=
  let allAttributes := record.filter (fun p => p.1 ≠ "id")
  let attributes := allAttributes.filter
    (fun p => !(attrExcluded struct polyFields idProperty p.1))
  { type := scopeName, id := jsStringO (getField record "id"), attributes }

/-- The polymorphic-field set built by `toJsonApiRecord`
(knex-json-api-transformers.js:79-89): every truthy `typeField`/`idField` of
a `belongsToPolymorphic` schema relationship — the same collection loop as
knex-field-helpers.js:210-217, starting from the empty set. -/
def polymorphicFieldsOf (rels : List (String × PolyRel)) : List String :=
  polyFieldLoop rels []

/-- Decision procedure for "x is a truthy `typeField` or `idField` of some
polymorphic schema relationship". -/
def isPolyFieldOf (rels : List (String × PolyRel)) (x : String) : Bool :=
  rels.any (fun p => p.2.belongsToPolymorphic &&
    (p.2.typeField == some x || p.2.idField == some x) && x != "")

/-- `toJsonApiRecord` (knex-json-api-transformers.js:70-101): `toJsonApi`
with the polymorphic fields computed from the schema relationships. -/
def toJsonApiRecord (si : SchemaInfo) (scopeName : String) (record : Record) : JRes :=
  toJsonApi si.struct scopeName si.idProperty (polymorphicFieldsOf si.rels) record

/-- `idProperty || 'id'` (knex-json-api-transformers.js:126). -/
def idFieldOf (idProperty : String) : String :=
  if idProperty = "" then "id" else idProperty

/-- Relationship `links` (knex-json-api-transformers.js:156-159):
`{base}/{type}/{id}/relationships/{alias}` and `{base}/{type}/{id}/{alias}`. -/
def mkRelLinks (base scopeName idStr relName : String) : RelLinks :=
  { self := base ++ "/" ++ scopeName ++ "/" ++ idStr ++ "/relationships/" ++ relName
    related := base ++ "/" ++ scopeName ++ "/" ++ idStr ++ "/" ++ relName }

/-- The predicate under which the `belongsTo` loop of `buildJsonApiResponse`
handles a schema field for alias `a`: it has `belongsTo`, its alias is `a`,
and its foreign-key column is present in the record
(knex-json-api-transformers.js:143). -/
def bjrQualifies (rec : Record) (a : String) (p : String × FieldDef) : Bool :=
  p.2.belongsTo.isSome && p.2.as == some a && (getField rec p.1).isSome

/-- The relationship entry built at
knex-json-api-transformers.js:146-176: linkage data when the stored
foreign-key value is non-null, `data: null` otherwise, always with
self/related links. -/
def bjrEntry (base scopeName idStr a t : String) (v : DBVal) : RelEntry :=
  if v ≠ DBVal.vNull then
    { data := some ⟨DBVal.vStr t, jsString v⟩
      links := some (mkRelLinks base scopeName idStr a) }
  else
    { data := none, links := some (mkRelLinks base scopeName idStr a) }

/-- The `belongsTo` loop of `buildJsonApiResponse`
(knex-json-api-transformers.js:142-179): for every schema field with
`belongsTo`, an alias and a *present* foreign-key column, add — unless the
alias is already populated — an entry with linkage data (or `data: null`
when the stored value is null) and self/related links. -/
def bjrBelongsToLoop (rec : Record) (scopeName idStr base : String) :
    List (String × FieldDef) → List (String × RelEntry) → List (String × RelEntry)
  | [], rels => rels
  | (f, fd) :: rest, rels =>
    match fd.belongsTo, fd.as, getField rec f with
    | some t, some a, some v =>
      if (lookupA rels a).isSome then bjrBelongsToLoop rec scopeName idStr base rest rels
      else
        bjrBelongsToLoop rec scopeName idStr base rest
          (rels ++ [(a, bjrEntry base scopeName idStr a t v)])
    | _, _, _ => bjrBelongsToLoop rec scopeName idStr base rest rels

/-- The polymorphic loop of `buildJsonApiResponse`
(knex-json-api-transformers.js:182-221): both values truthy → linkage data;
either value exactly null → `data: null`; otherwise (e.g. an absent column)
no entry at all.  Assignment overwrites an existing entry. -/
def bjrPolyLoop (rec : Record) (scopeName idStr base : String) :
    List (String × PolyRel) → List (String × RelEntry) → List (String × RelEntry)
  | [], rels => rels
  | (rn, rd) :: rest, rels =>
    if rd.belongsToPolymorphic then
      let tv := getFieldO rec rd.typeField
      let iv := getFieldO rec rd.idField
      if truthyO tv && truthyO iv then
        bjrPolyLoop rec scopeName idStr base rest
          (setKeyA rels rn
            { data := some ⟨tv.getD DBVal.vNull, jsStringO iv⟩
              links := some (mkRelLinks base scopeName idStr rn) })
      else if tv = some DBVal.vNull ∨ iv = some DBVal.vNull then
        bjrPolyLoop rec scopeName idStr base rest
          (setKeyA rels rn
            { data := none, links := some (mkRelLinks base scopeName idStr rn) })
      else bjrPolyLoop rec scopeName idStr base rest rels
    else bjrPolyLoop rec scopeName idStr base rest rels

/-- A raw row as fed to `buildJsonApiResponse`'s record loop: the scalar
columns plus the optional preloaded relationships stored under
`RELATIONSHIPS_KEY`. -/
structure RawRecord where
  fields : Record
  preloaded : Option (List (String × RelEntry)) := none

/-- Per-record processing of `buildJsonApiResponse`
(knex-json-api-transformers.js:132-223): convert the cleaned record with
`toJsonApiRecord`, seed `relationships` with any preloaded ones, then run the
`belongsTo` and polymorphic loops. -/
def bjrProcessRecord (si : SchemaInfo) (scopeName base : String) (r : RawRecord) : JRes :=
  let cleanRecord := r.fields
  let jsonApiRecord := toJsonApiRecord si scopeName cleanRecord
  let idStr := jsStringO (getField r.fields (idFieldOf si.idProperty))
  let rels0 := r.preloaded.getD []
  let rels1 := bjrBelongsToLoop cleanRecord scopeName idStr base si.struct rels0
  let rels2 := bjrPolyLoop cleanRecord scopeName idStr base si.rels rels1
  { jsonApiRecord with
    relationships :=
      match r.preloaded with
      | some _ => some rels2
      | none => if rels2.isEmpty then none else some rels2 }

/-- The `belongsTo` loop of `toJsonApiRecordWithBelongsTo`
(knex-json-api-transformers.js:343-361): every `belongsTo` field with an
alias gets an entry — `data: null` when the foreign key is null or absent —
and **no** links; assignment overwrites. -/
def tjrwbBelongsToLoop (rec : Record) :
    List (String × FieldDef) → List (String × RelEntry) → List (String × RelEntry)
  | [], rels => rels
  | (f, fd) :: rest, rels =>
    match fd.belongsTo, fd.as with
    | some t, some a =>
      let e : RelEntry :=
        match getField rec f with
        | some v =>
          if v ≠ DBVal.vNull then { data := some ⟨DBVal.vStr t, jsString v⟩, links := none }
          else { data := none, links := none }
        | none => { data := none, links := none }
      tjrwbBelongsToLoop rec rest (setKeyA rels a e)
    | _, _ => tjrwbBelongsToLoop rec rest rels

/-- The relationship entry built by the polymorphic loop of
`toJsonApiRecordWithBelongsTo` (knex-json-api-transformers.js:368-381): both
stored values truthy → linkage data; every other case → `data: null`; never
any links. -/
def tjrwbPolyEntry (rec : Record) (rd : PolyRel) : RelEntry :=
  if truthyO (getFieldO rec rd.typeField) && truthyO (getFieldO rec rd.idField) then
    { data := some ⟨(getFieldO rec rd.typeField).getD DBVal.vNull,
                    jsStringO (getFieldO rec rd.idField)⟩
      links := none }
  else { data := none, links := none }

/-- The polymorphic loop of `toJsonApiRecordWithBelongsTo`
(knex-json-api-transformers.js:364-383): both values truthy → linkage data;
every other case → `data: null`; no links. -/
def tjrwbPolyLoop (rec : Record) :
    List (String × PolyRel) → List (String × RelEntry) → List (String × RelEntry)
  | [], rels => rels
  | (rn, rd) :: rest, rels =>
    if rd.belongsToPolymorphic then
      tjrwbPolyLoop rec rest (setKeyA rels rn (tjrwbPolyEntry rec rd))
    else tjrwbPolyLoop rec rest rels

/-- `toJsonApiRecordWithBelongsTo` (knex-json-api-transformers.js:321-391). -/
def toJsonApiRecordWithBelongsTo (si : SchemaInfo) (scopeName : String)
    (record : Record) : JRes :=
  let jsonApiRecord := toJsonApiRecord si scopeName record
  let rels1 := tjrwbBelongsToLoop record si.struct []
  let rels2 := tjrwbPolyLoop record si.rels rels1
  { jsonApiRecord with
    relationships := if rels2.isEmpty then none else some rels2 }

/-! ### processBelongsToRelationships (knex-json-api-transformers.js:407-439) -/

/-- A resource-identifier object inside an input document's relationship
`data` (the `id` may be absent). -/
structure ResIdIn where
  type : String := ""
  id : Option DBVal := none
  deriving DecidableEq, Repr

/-- One relationship object of an input document: `data` is `none` for
`data: null` (or an absent `data` key) and `some rid` for a resource
identifier. -/
structure InputRel where
  data : Option ResIdIn := none
  deriving DecidableEq, Repr

/-- The foreign-key value computed at knex-json-api-transformers.js:433:
`relData.data?.id || null` — a falsy id (null, absent, `0`, `""`, `false`)
becomes null. -/
def fkValueOf (relData : InputRel) : DBVal :=
  match relData.data with
  | some rid =>
    match rid.id with
    | some w => if truthy w then w else DBVal.vNull
    | none => DBVal.vNull
  | none => DBVal.vNull

/-- The loop of knex-json-api-transformers.js:428-436 over the schema
structure, writing one foreign-key update per `belongsTo` field whose alias
is present in the input's relationships object. -/
def pbrLoop (inputRels : List (String × InputRel)) :
    List (String × FieldDef) → List (String × DBVal) → List (String × DBVal)
  | [], acc => acc
  | (f, fd) :: rest, acc =>
    match fd.belongsTo, fd.as with
    | some _, some a =>
      match lookupA inputRels a with
      | some relData => pbrLoop inputRels rest (setKeyA acc f (fkValueOf relData))
      | none => pbrLoop inputRels rest acc
    | _, _ => pbrLoop inputRels rest acc

/-- `processBelongsToRelationships` (knex-json-api-transformers.js:407-439):
returns the foreign-key update map derived from the input document's
`relationships` object (`none` models an input without one). -/
def processBelongsToRelationships (si : SchemaInfo)
    (inputRels : Option (List (String × InputRel))) : List (String × DBVal) :=
  match inputRels with
  | none => []
  | some rels => pbrLoop rels si.struct []

/-! ### deleteRelationship (rest-api-plugin-methods/delete-relationship.js) -/

namespace DelRel

/-- The pivot-column pair of a many-to-many definition (`foreignKey` points
at the parent, `otherKey` at the target). -/
structure M2MDef where
  through : String
  foreignKey : String
  otherKey : String
  deriving DecidableEq, Repr

/-- The slice of a relationship definition `deleteRelationshipMethod` reads:
`hasMany` (target type), `manyToMany`, and the direct `through` /
`foreignKey` / `otherKey` properties. -/
structure RelDef where
  hasMany : Option String := none
  manyToMany : Option M2MDef := none
  through : Option String := none
  foreignKey : Option String := none
  otherKey : Option String := none
  deriving DecidableEq, Repr

/-- The storage visible to `deleteRelationshipMethod`: the parent table, the
pivot table of the relationship, and the target table. -/
structure DBState where
  parentTable : List Record := []
  pivotTable : List Record := []
  targetTable : List Record := []
  deriving DecidableEq, Repr

/-- One pivot delete (delete-relationship.js:78-82):
`knex(pivotTable).where(localKey, parentId).where(otherKey, targetId).delete()`. -/
def pivotDeleteOne (localKey otherKey : String) (pid tid : DBVal)
    (table : List Record) : List Record :=
  table.filter (fun r => !(getField r localKey == some pid && getField r otherKey == some tid))

/-- The delete loop over the listed resource identifiers
(delete-relationship.js:77-83), with a storage-failure oracle `failsOn`
standing for a storage error thrown by a particular delete statement. -/
def pivotDeleteLoop (localKey otherKey : String) (pid : DBVal) (failsOn : DBVal → Bool) :
    List DBVal → List Record → Except Unit (List Record)
  | [], table => .ok table
  | tid :: rest, table =>
    if failsOn tid then .error ()
    else pivotDeleteLoop localKey otherKey pid failsOn rest
      (pivotDeleteOne localKey otherKey pid tid table)

/-- Setting one record's column (overwrite or append). -/
def setField (r : Record) (k : String) (v : DBVal) : Record := setKeyA r k v

/-- One `patch` nulling a child's foreign key (delete-relationship.js:88-99).

Modelled from the spec: the `patch` method itself is not under `src/`; per
spec §4.6 a patch updates the named columns of the row whose identity value
matches the given id, inside the same transaction, touching no other row. -/
def patchNullOne (idProp fk : String) (tid : DBVal) (table : List Record) : List Record :=
  table.map (fun r => if getField r idProp == some tid then setField r fk DBVal.vNull else r)

/-- The hasMany loop over the listed resource identifiers
(delete-relationship.js:86-100), with the same storage-failure oracle. -/
def patchNullLoop (idProp fk : String) (failsOn : DBVal → Bool) :
    List DBVal → List Record → Except Unit (List Record)
  | [], table => .ok table
  | tid :: rest, table =>
    if failsOn tid then .error ()
    else patchNullLoop idProp fk failsOn rest (patchNullOne idProp fk tid table)

/-- The error taxonomy of `deleteRelationshipMethod`'s own throws plus a
generic storage error. -/
inductive DelErr where
  | relationshipNotFound
  | toOneRelationship
  | payloadNotArray
  | parentNotFound
  | storage
  deriving DecidableEq, Repr

/-- `findRelationshipDefinition(schemaInfo, relationshipName)`.

Modelled from the spec: `rest-api-plugin-methods/common.js` is not under
`src/`; per spec §4.3 the relationship definitions are keyed by alias, so the
lookup returns the definition registered under the given name, or nothing. -/
def findRelationshipDefinition (rels : List (String × RelDef)) (name : String) :
    Option RelDef := lookupA rels name

/-- `helpers.dataExists` (delete-relationship.js:53-57).

Modelled from the spec: the helper is not under `src/`; per spec §4.6/§7 it
checks that a row with the given identity value exists in the primary table. -/
def dataExists (table : List Record) (idProp : String) (pid : DBVal) : Bool :=
  table.any (fun r => getField r idProp == some pid)

/-- `deleteRelationshipMethod` (delete-relationship.js:15-115) as a function
from the pre-state to either an error or the post-state of the transaction's
working copy.  Validation steps happen in source order: relationship lookup,
to-many check, array-payload check, permission hooks (pure call points),
parent-existence check, then the mutation loop (many-to-many pivot deletes,
or `hasMany && through` treated the same way, or direct-hasMany foreign-key
nulling via `patch`). -/
def deleteRelationshipMethod (st : DBState) (rels : List (String × RelDef))
    (relName : String) (idProp : String) (pid : DBVal)
    (payload : Option (List DBVal)) (failsOn : DBVal → Bool) : Except DelErr DBState :=
  match findRelationshipDefinition rels relName with
  | none => .error .relationshipNotFound
  | some relDef =>
    if relDef.hasMany.isNone && relDef.manyToMany.isNone then .error .toOneRelationship
    else
      match payload with
      | none => .error .payloadNotArray
      | some ids =>
        if !dataExists st.parentTable idProp pid then .error .parentNotFound
        else
          if relDef.manyToMany.isSome || (relDef.hasMany.isSome && relDef.through.isSome) then
            let m2m : M2MDef :=
              match relDef.manyToMany with
              | some d => d
              | none =>
                { through := relDef.through.getD ""
                  foreignKey := relDef.foreignKey.getD ""
                  otherKey := relDef.otherKey.getD "" }
            match pivotDeleteLoop m2m.foreignKey m2m.otherKey pid failsOn ids st.pivotTable with
            | .ok pivot => .ok { st with pivotTable := pivot }
            | .error _ => .error .storage
          else
            match patchNullLoop idProp (relDef.foreignKey.getD "") failsOn ids st.targetTable with
            | .ok target => .ok { st with targetTable := target }
            | .error _ => .error .storage

/-- The state visible after the method finishes.

Modelled from the spec: the catch block of delete-relationship.js:112-114
delegates to `handleWriteMethodError`, which is not under `src/`; per spec
§4.6 ("Any step failing rolls back the entire transaction; partial writes
are never visible") and §7 it rolls back the transaction the method opened,
so on any error the pre-state is what remains visible; on success the commit
publishes the working copy. -/
def deleteRelationshipVisible (st : DBState) (rels : List (String × RelDef))
    (relName : String) (idProp : String) (pid : DBVal)
    (payload : Option (List DBVal)) (failsOn : DBVal → Bool) : DBState :=
  match deleteRelationshipMethod st rels relName idProp pid payload failsOn with
  | .ok st' => st'
  | .error _ => st

end DelRel

/-! ### Concrete fixtures used to instantiate the theorems -/

/-- A book-shop style schema exercising every feature: plain, hidden and
normally-hidden columns, two `belongsTo` foreign keys (one hidden), computed
fields with dependencies, a virtual field and a polymorphic relationship. -/
def bookSchema : SchemaInfo :=
  { struct :=
      [ ("title", {})
      , ("secret", { hidden := true })
      , ("cost", { normallyHidden := true })
      , ("price", {})
      , ("author_id", { belongsTo := some "authors", as := some "author" })
      , ("owner_id", { belongsTo := some "people", as := some "owner", hidden := true }) ]
    computed :=
      [ ("profit_margin", { dependencies := ["price", "cost"] })
      , ("secret_sum", { dependencies := ["secret"] }) ]
    virtual := ["passwordConfirmation"]
    rels :=
      [ ("commentable",
          { belongsToPolymorphic := true
            typeField := some "commentable_type"
            idField := some "commentable_id" }) ]
    idProperty := "id" }

/-- A schema whose polymorphic `typeField` column is itself marked hidden —
the field-selection loops still fetch it. -/
def polyHiddenSchema : SchemaInfo :=
  { struct :=
      [ ("body", {})
      , ("commentable_type", { hidden := true })
      , ("commentable_id", {}) ]
    rels :=
      [ ("commentable",
          { belongsToPolymorphic := true
            typeField := some "commentable_type"
            idField := some "commentable_id" }) ]
    idProperty := "id" }

/-- A record for `bookSchema` with every column present and non-null. -/
def bookRecord : Record :=
  [ ("id", DBVal.vInt 1)
  , ("title", DBVal.vStr "Dune")
  , ("cost", DBVal.vInt 4)
  , ("price", DBVal.vInt 9)
  , ("author_id", DBVal.vInt 7)
  , ("owner_id", DBVal.vInt 3)
  , ("commentable_type", DBVal.vStr "articles")
  , ("commentable_id", DBVal.vInt 5) ]

/-- A `bookSchema` record whose polymorphic id is the (non-null but falsy)
integer 0 and whose `author_id` foreign key is null. -/
def bookRecordZero : Record :=
  [ ("id", DBVal.vInt 2)
  , ("title", DBVal.vStr "Zero")
  , ("author_id", DBVal.vNull)
  , ("commentable_type", DBVal.vStr "articles")
  , ("commentable_id", DBVal.vInt 0) ]

/-- A `bookSchema` record from which the `author_id` column is absent (as
happens when the column was not selected). -/
def bookRecordNoFk : Record :=
  [ ("id", DBVal.vInt 3)
  , ("title", DBVal.vStr "NoFk") ]

/-- A many-to-many relationship definition (books ↔ authors through a
`book_authors` pivot). -/
def bookAuthorsRel : DelRel.RelDef :=
  { manyToMany := some
      { through := "book_authors", foreignKey := "book_id", otherKey := "author_id" } }

/-- A direct hasMany relationship definition (book → chapters via the
`book_id` foreign key on the target table). -/
def chaptersRel : DelRel.RelDef :=
  { hasMany := some "chapters", foreignKey := some "book_id" }

/-- The relationship registry used by the delete-relationship fixtures. -/
def delRels : List (String × DelRel.RelDef) :=
  [("authors", bookAuthorsRel), ("chapters", chaptersRel)]

/-- A storage fixture: two parent books, four pivot associations and three
target authors. -/
def pivotFixture : DelRel.DBState :=
  { parentTable := [[("id", DBVal.vInt 1)], [("id", DBVal.vInt 2)]]
    pivotTable :=
      [ [("book_id", DBVal.vInt 1), ("author_id", DBVal.vInt 10)]
      , [("book_id", DBVal.vInt 1), ("author_id", DBVal.vInt 11)]
      , [("book_id", DBVal.vInt 1), ("author_id", DBVal.vInt 12)]
      , [("book_id", DBVal.vInt 2), ("author_id", DBVal.vInt 10)] ]
    targetTable :=
      [ [("id", DBVal.vInt 10), ("book_id", DBVal.vInt 1)]
      , [("id", DBVal.vInt 11), ("book_id", DBVal.vInt 1)]
      , [("id", DBVal.vInt 12), ("book_id", DBVal.vInt 2)] ] }

/-- A `bookSchema` record with the polymorphic `typeField` set and the
`idField` explicitly null. -/
def bookRecordNullPoly : Record :=
  [ ("id", DBVal.vInt 4)
  , ("title", DBVal.vStr "NullPoly")
  , ("author_id", DBVal.vInt 7)
  , ("commentable_type", DBVal.vStr "articles")
  , ("commentable_id", DBVal.vNull) ]

/-! ### Basic lemmas about the JS-object model -/

theorem lookupA_nil {α : Type} (k : String) : lookupA ([] : List (String × α)) k = none := rfl

theorem lookupA_cons {α : Type} (p : String × α) (l : List (String × α)) (k : String) :
    lookupA (p :: l) k = if p.1 = k then some p.2 else lookupA l k := by
  by_cases h : p.1 = k <;> simp [lookupA, List.find?_cons, h]

theorem lookupA_append {α : Type} (l₁ l₂ : List (String × α)) (k : String) :
    lookupA (l₁ ++ l₂) k =
      match lookupA l₁ k with
      | some v => some v
      | none => lookupA l₂ k := by
  induction l₁ with
  | nil => simp [lookupA_nil]
  | cons p rest ih =>
    by_cases h : p.1 = k <;> simp [lookupA_cons, h, ih]

theorem mem_of_lookupA {α : Type} {l : List (String × α)} {k : String} {v : α}
    (h : lookupA l k = some v) : (k, v) ∈ l := by
  induction l with
  | nil => simp [lookupA_nil] at h
  | cons p rest ih =>
    rw [lookupA_cons] at h
    split at h
    · rename_i hk
      injection h with h2
      have hp : p = (k, v) := Prod.ext_iff.mpr ⟨hk, h2⟩
      rw [← hp]
      exact List.mem_cons_self p rest
    · exact List.mem_cons_of_mem _ (ih h)

theorem lookupA_eq_of_mem_nodup {α : Type} {l : List (String × α)} {k : String} {v : α}
    (h : (k, v) ∈ l) (hnd : (l.map Prod.fst).Nodup) : lookupA l k = some v := by
  induction l with
  | nil => simp at h
  | cons p rest ih =>
    rw [List.map_cons, List.nodup_cons] at hnd
    rcases List.mem_cons.mp h with rfl | h'
    · simp [lookupA_cons]
    · rw [lookupA_cons]
      have hne : p.1 ≠ k := by
        rintro rfl
        exact hnd.1 (List.mem_map.mpr ⟨(p.1, v), h', rfl⟩)
      simp [hne]
      exact ih h' hnd.2

theorem mem_addU_iff {l : List String} {x y : String} : y ∈ addU l x ↔ y ∈ l ∨ y = x := by
  unfold addU
  split
  · rename_i hx
    constructor
    · exact Or.inl
    · rintro (h | rfl)
      · exact h
      · exact hx
  · simp [List.mem_append]

theorem mem_addU_of_mem {l : List String} {x y : String} (h : y ∈ l) : y ∈ addU l x :=
  mem_addU_iff.mpr (Or.inl h)

theorem self_mem_addU (l : List String) (x : String) : x ∈ addU l x :=
  mem_addU_iff.mpr (Or.inr rfl)

theorem mem_setKeyA {α : Type} {l : List (String × α)} {k : String} {v : α} {p : String × α}
    (h : p ∈ setKeyA l k v) : p ∈ l ∨ p = (k, v) := by
  unfold setKeyA at h
  split at h
  · rcases List.mem_map.mp h with ⟨q, hq, hq2⟩
    by_cases hk : q.1 = k
    · simp only [if_pos hk] at hq2
      exact Or.inr hq2.symm
    · simp only [if_neg hk] at hq2
      exact Or.inl (hq2 ▸ hq)
  · rcases List.mem_append.mp h with h | h
    · exact Or.inl h
    · simp at h
      exact Or.inr h

theorem lookupA_map_overwrite {α : Type} (l : List (String × α)) (k k' : String) (v : α) :
    lookupA (l.map (fun p => if p.1 = k then (k, v) else p)) k' =
      if k = k' then (lookupA l k').map (fun _ => v) else lookupA l k' := by
  induction l with
  | nil => by_cases h : k = k' <;> simp [lookupA_nil, h]
  | cons p rest ih =>
    by_cases hpk : p.1 = k
    · by_cases hkk : k = k'
      · subst hkk
        simp [hpk, lookupA_cons]
      · have hp' : p.1 ≠ k' := by rw [hpk]; exact hkk
        simp [hpk, lookupA_cons, hp', hkk, ih]
    · by_cases hpk' : p.1 = k'
      · by_cases hkk : k = k'
        · exact absurd (hkk ▸ hpk') hpk
        · have hkk' : k' ≠ k := fun h => hkk h.symm
          simp [hpk, lookupA_cons, hpk', hkk, hkk']
      · simp [hpk, lookupA_cons, hpk', ih]

theorem lookupA_setKeyA_self {α : Type} (l : List (String × α)) (k : String) (v : α) :
    lookupA (setKeyA l k v) k = some v := by
  unfold setKeyA
  split
  · rename_i hs
    rw [lookupA_map_overwrite, if_pos rfl]
    rcases Option.isSome_iff_exists.mp hs with ⟨w, hw⟩
    simp [hw]
  · rename_i hs
    rw [lookupA_append]
    have : lookupA l k = none := Option.not_isSome_iff_eq_none.mp hs
    simp [this, lookupA_cons]

theorem lookupA_setKeyA_ne {α : Type} (l : List (String × α)) (k k' : String) (v : α)
    (h : k ≠ k') : lookupA (setKeyA l k v) k' = lookupA l k' := by
  unfold setKeyA
  split
  · rw [lookupA_map_overwrite, if_neg h]
  · rw [lookupA_append]
    cases hl : lookupA l k' with
    | some w => simp
    | none => simp [lookupA_cons, lookupA_nil, h]

/-! ### Lemmas about the `buildFieldSelection` loops -/

theorem sparseReqLoop_mono {si : SchemaInfo} {scopeName : String} :
    ∀ {req fts fts'}, sparseReqLoop si scopeName req fts = .ok fts' →
      ∀ {x}, x ∈ fts → x ∈ fts'
  | [], _, _, h, x, hx => by
    simp [sparseReqLoop] at h
    exact h ▸ hx
  | f :: rest, fts, fts', h, x, hx => by
    rw [sparseReqLoop] at h
    split at h
    · exact sparseReqLoop_mono h hx
    · split at h
      · exact absurd h (by simp)
      · split at h
        · exact sparseReqLoop_mono h hx
        · exact sparseReqLoop_mono h (mem_addU_of_mem hx)

theorem sparseReqLoop_mem {si : SchemaInfo} {scopeName : String} {f : String} {fd : FieldDef}
    (hdb : isNonDatabaseField si f = false) (hlk : lookupField si f = some fd)
    (hh : fd.hidden = false) :
    ∀ {req fts fts'}, sparseReqLoop si scopeName req fts = .ok fts' → f ∈ req → f ∈ fts'
  | [], _, _, _, hf => by simp at hf
  | g :: rest, fts, fts', h, hf => by
    rcases List.mem_cons.mp hf with rfl | hf'
    · rw [sparseReqLoop] at h
      rw [hdb] at h
      simp only [Bool.false_eq_true, if_false] at h
      rw [hlk] at h
      simp only [hh, Bool.false_eq_true, if_false] at h
      exact sparseReqLoop_mono h (self_mem_addU fts f)
    · rw [sparseReqLoop] at h
      split at h
      · exact sparseReqLoop_mem hdb hlk hh h hf'
      · split at h
        · exact absurd h (by simp)
        · split at h
          · exact sparseReqLoop_mem hdb hlk hh h hf'
          · exact sparseReqLoop_mem hdb hlk hh h hf'

theorem sparseReqLoop_sound {si : SchemaInfo} {scopeName : String} :
    ∀ {req fts fts'}, sparseReqLoop si scopeName req fts = .ok fts' →
      ∀ {x}, x ∈ fts' → x ∈ fts ∨ ∃ fd, lookupField si x = some fd ∧ fd.hidden = false
  | [], _, _, h, x, hx => by
    simp [sparseReqLoop] at h
    exact Or.inl (h ▸ hx)
  | f :: rest, fts, fts', h, x, hx => by
    rw [sparseReqLoop] at h
    split at h
    · exact sparseReqLoop_sound h hx
    · split at h
      · exact absurd h (by simp)
      · rename_i fd hlk
        split at h
        · exact sparseReqLoop_sound h hx
        · rename_i hh
          rcases sparseReqLoop_sound h hx with hin | hrest
          · rcases mem_addU_iff.mp hin with hin | rfl
            · exact Or.inl hin
            · exact Or.inr ⟨fd, hlk, by simpa using hh⟩
          · exact Or.inr hrest

theorem sparseReqLoop_error_at {si : SchemaInfo} (scopeName : String) {f : String}
    (hdb : isNonDatabaseField si f = false) (hlk : lookupField si f = none) :
    ∀ (pre post fts : List String),
      (∀ g ∈ pre, isNonDatabaseField si g = true ∨ (lookupField si g).isSome) →
      sparseReqLoop si scopeName (pre ++ f :: post) fts = .error (unknownFieldMsg f scopeName)
  | [], post, fts, _ => by
    rw [List.nil_append, sparseReqLoop, hdb]
    simp only [Bool.false_eq_true, if_false]
    rw [hlk]
  | g :: pre, post, fts, hpre => by
    rw [List.cons_append, sparseReqLoop]
    by_cases hdb2 : isNonDatabaseField si g = true
    · rw [if_pos hdb2]
      exact sparseReqLoop_error_at scopeName hdb hlk pre post fts
        (fun x hx => hpre x (List.mem_cons_of_mem g hx))
    · rw [if_neg hdb2]
      rcases hpre g (List.mem_cons_self g pre) with hg | hg
      · exact absurd hg hdb2
      · rcases Option.isSome_iff_exists.mp hg with ⟨fd, hfd⟩
        rw [hfd]
        dsimp only
        by_cases hh : fd.hidden = true
        · rw [if_pos hh]
          exact sparseReqLoop_error_at scopeName hdb hlk pre post fts
            (fun x hx => hpre x (List.mem_cons_of_mem g hx))
        · rw [if_neg hh]
          exact sparseReqLoop_error_at scopeName hdb hlk pre post (addU fts g)
            (fun x hx => hpre x (List.mem_cons_of_mem g hx))

theorem sparseReqLoop_ok_of {si : SchemaInfo} (scopeName : String) :
    ∀ (req fts : List String),
      (∀ g ∈ req, isNonDatabaseField si g = true ∨ (lookupField si g).isSome) →
      ∃ fts', sparseReqLoop si scopeName req fts = .ok fts'
  | [], fts, _ => ⟨fts, rfl⟩
  | g :: rest, fts, hall => by
    rw [sparseReqLoop]
    by_cases hdb2 : isNonDatabaseField si g = true
    · rw [if_pos hdb2]
      exact sparseReqLoop_ok_of scopeName rest fts
        (fun x hx => hall x (List.mem_cons_of_mem g hx))
    · rw [if_neg hdb2]
      rcases hall g (List.mem_cons_self g rest) with hg | hg
      · exact absurd hg hdb2
      · rcases Option.isSome_iff_exists.mp hg with ⟨fd, hfd⟩
        rw [hfd]
        dsimp only
        by_cases hh : fd.hidden = true
        · rw [if_pos hh]
          exact sparseReqLoop_ok_of scopeName rest fts
            (fun x hx => hall x (List.mem_cons_of_mem g hx))
        · rw [if_neg hh]
          exact sparseReqLoop_ok_of scopeName rest (addU fts g)
            (fun x hx => hall x (List.mem_cons_of_mem g hx))

theorem depsAddLoop_mono {si : SchemaInfo} {requested : List String} :
    ∀ {deps acc}, (∀ {x : String}, x ∈ acc.1 → x ∈ (depsAddLoop si requested deps acc).1) ∧
      (∀ {x : String}, x ∈ acc.2 → x ∈ (depsAddLoop si requested deps acc).2)
  | [], acc => ⟨fun hx => hx, fun hx => hx⟩
  | dep :: rest, (fts, cds) => by
    rw [depsAddLoop]
    split
    · split
      · exact depsAddLoop_mono
      · constructor
        · exact fun hx => depsAddLoop_mono.1 (mem_addU_of_mem hx)
        · intro x hx
          refine depsAddLoop_mono.2 ?_
          split
          · exact hx
          · exact mem_addU_of_mem hx
    · exact depsAddLoop_mono

theorem depsAddLoop_mem (si : SchemaInfo) (requested : List String) {dep : String}
    {dd : FieldDef} (hlk : lookupField si dep = some dd) (hh : dd.hidden = false) :
    ∀ {deps} (acc : List String × List String), dep ∈ deps →
      dep ∈ (depsAddLoop si requested deps acc).1 ∧
      (dep ∉ requested → dep ∈ (depsAddLoop si requested deps acc).2)
  | [], _, hd => by simp at hd
  | d :: rest, (fts, cds), hd => by
    rcases List.mem_cons.mp hd with rfl | hd'
    · rw [depsAddLoop, hlk]
      dsimp only
      rw [hh]
      simp only [Bool.false_eq_true, if_false]
      refine ⟨depsAddLoop_mono.1 (self_mem_addU fts dep), fun hreq => ?_⟩
      refine depsAddLoop_mono.2 ?_
      rw [if_neg hreq]
      exact self_mem_addU cds dep
    · rw [depsAddLoop]
      split
      · split
        · exact depsAddLoop_mem si requested hlk hh _ hd'
        · exact depsAddLoop_mem si requested hlk hh _ hd'
      · exact depsAddLoop_mem si requested hlk hh _ hd'

theorem depsAddLoop_sound_fts {si : SchemaInfo} {requested : List String} :
    ∀ {deps acc} {x : String}, x ∈ (depsAddLoop si requested deps acc).1 →
      x ∈ acc.1 ∨ ∃ dd : FieldDef, lookupField si x = some dd ∧ dd.hidden = false
  | [], _, _, hx => Or.inl hx
  | dep :: rest, (fts, cds), x, hx => by
    rw [depsAddLoop] at hx
    split at hx
    · rename_i dd' hlk'
      split at hx
      · exact depsAddLoop_sound_fts hx
      · rename_i hh'
        rcases depsAddLoop_sound_fts hx with hin | hrest
        · rcases mem_addU_iff.mp hin with hin | rfl
          · exact Or.inl hin
          · exact Or.inr ⟨dd', hlk', by simpa using hh'⟩
        · exact Or.inr hrest
    · exact depsAddLoop_sound_fts hx

theorem depsAddLoop_sound_cds {si : SchemaInfo} {requested : List String} :
    ∀ {deps acc} {x : String}, x ∈ (depsAddLoop si requested deps acc).2 →
      x ∈ acc.2 ∨ x ∉ requested
  | [], _, _, hx => Or.inl hx
  | dep :: rest, (fts, cds), x, hx => by
    rw [depsAddLoop] at hx
    split at hx
    · split at hx
      · exact depsAddLoop_sound_cds hx
      · rcases depsAddLoop_sound_cds hx with hin | hni
        · split at hin
          · exact Or.inl hin
          · rcases mem_addU_iff.mp hin with hin | rfl
            · exact Or.inl hin
            · rename_i hreq
              exact Or.inr hreq
        · exact Or.inr hni
    · exact depsAddLoop_sound_cds hx

theorem reqComputedLoop_mono {si : SchemaInfo} {requested : List String} :
    ∀ {cs acc}, (∀ {x : String}, x ∈ acc.1 → x ∈ (reqComputedLoop si requested cs acc).1) ∧
      (∀ {x : String}, x ∈ acc.2 → x ∈ (reqComputedLoop si requested cs acc).2)
  | [], acc => ⟨fun hx => hx, fun hx => hx⟩
  | c :: rest, acc => by
    rw [reqComputedLoop]
    split
    · exact ⟨fun hx => reqComputedLoop_mono.1 (depsAddLoop_mono.1 hx),
        fun hx => reqComputedLoop_mono.2 (depsAddLoop_mono.2 hx)⟩
    · exact reqComputedLoop_mono

theorem reqComputedLoop_mem (si : SchemaInfo) (requested : List String) {c dep : String}
    {cd : ComputedDef} {dd : FieldDef} (hc : lookupComputed si c = some cd)
    (hdep : dep ∈ cd.dependencies) (hlk : lookupField si dep = some dd)
    (hh : dd.hidden = false) :
    ∀ {cs} (acc : List String × List String), c ∈ cs →
      dep ∈ (reqComputedLoop si requested cs acc).1 ∧
      (dep ∉ requested → dep ∈ (reqComputedLoop si requested cs acc).2)
  | [], _, hcs => by simp at hcs
  | g :: rest, acc, hcs => by
    rcases List.mem_cons.mp hcs with rfl | hcs'
    · rw [reqComputedLoop, hc]
      dsimp only
      have hd := depsAddLoop_mem si requested hlk hh acc hdep
      exact ⟨reqComputedLoop_mono.1 hd.1, fun hr => reqComputedLoop_mono.2 (hd.2 hr)⟩
    · rw [reqComputedLoop]
      split
      · exact reqComputedLoop_mem si requested hc hdep hlk hh _ hcs'
      · exact reqComputedLoop_mem si requested hc hdep hlk hh _ hcs'

theorem reqComputedLoop_sound_fts {si : SchemaInfo} {requested : List String} :
    ∀ {cs acc} {x : String}, x ∈ (reqComputedLoop si requested cs acc).1 →
      x ∈ acc.1 ∨ ∃ dd : FieldDef, lookupField si x = some dd ∧ dd.hidden = false
  | [], _, _, hx => Or.inl hx
  | c :: rest, acc, x, hx => by
    rw [reqComputedLoop] at hx
    split at hx
    · rcases reqComputedLoop_sound_fts hx with hin | hrest
      · exact depsAddLoop_sound_fts hin
      · exact Or.inr hrest
    · exact reqComputedLoop_sound_fts hx

theorem reqComputedLoop_sound_cds {si : SchemaInfo} {requested : List String} :
    ∀ {cs acc} {x : String}, x ∈ (reqComputedLoop si requested cs acc).2 →
      x ∈ acc.2 ∨ x ∉ requested
  | [], _, _, hx => Or.inl hx
  | c :: rest, acc, x, hx => by
    rw [reqComputedLoop] at hx
    split at hx
    · rcases reqComputedLoop_sound_cds hx with hin | hni
      · exact depsAddLoop_sound_cds hin
      · exact Or.inr hni
    · exact reqComputedLoop_sound_cds hx

theorem nhCompatLoop_mono {requested : List String} :
    ∀ {entries acc}, (∀ {x : String}, x ∈ acc.1 → x ∈ (nhCompatLoop requested entries acc).1) ∧
      (∀ {x : String}, x ∈ acc.2 → x ∈ (nhCompatLoop requested entries acc).2)
  | [], acc => ⟨fun hx => hx, fun hx => hx⟩
  | (f, fd) :: rest, (fts, cds) => by
    rw [nhCompatLoop]
    split
    · constructor
      · exact fun hx => nhCompatLoop_mono.1 (List.mem_append_left _ hx)
      · intro x hx
        refine nhCompatLoop_mono.2 ?_
        split
        · exact hx
        · exact mem_addU_of_mem hx
    · exact nhCompatLoop_mono

theorem nhCompatLoop_sound_fts {requested : List String} :
    ∀ {entries acc} {x : String}, x ∈ (nhCompatLoop requested entries acc).1 →
      x ∈ acc.1 ∨ ∃ fd : FieldDef, (x, fd) ∈ entries ∧
        fd.normallyHidden = true ∧ fd.hidden = false
  | [], _, _, hx => Or.inl hx
  | (f, fd) :: rest, (fts, cds), x, hx => by
    rw [nhCompatLoop] at hx
    split at hx
    · rename_i hcond
      rcases nhCompatLoop_sound_fts hx with hin | ⟨fd', hm, h1, h2⟩
      · rcases List.mem_append.mp hin with hin | hin
        · exact Or.inl hin
        · simp at hin
          subst hin
          simp only [Bool.and_eq_true, Bool.not_eq_true', decide_eq_true_eq] at hcond
          exact Or.inr ⟨fd, List.mem_cons_self _ _, hcond.1.1, hcond.1.2⟩
      · exact Or.inr ⟨fd', List.mem_cons_of_mem _ hm, h1, h2⟩
    · rcases nhCompatLoop_sound_fts hx with hin | ⟨fd', hm, h1, h2⟩
      · exact Or.inl hin
      · exact Or.inr ⟨fd', List.mem_cons_of_mem _ hm, h1, h2⟩

theorem nhCompatLoop_sound_cds {requested : List String} :
    ∀ {entries acc} {x : String}, x ∈ (nhCompatLoop requested entries acc).2 →
      x ∈ acc.2 ∨ x ∉ requested
  | [], _, _, hx => Or.inl hx
  | (f, fd) :: rest, (fts, cds), x, hx => by
    rw [nhCompatLoop] at hx
    split at hx
    · rcases nhCompatLoop_sound_cds hx with hin | hni
      · split at hin
        · exact Or.inl hin
        · rcases mem_addU_iff.mp hin with hin | rfl
          · exact Or.inl hin
          · rename_i hreq
            exact Or.inr hreq
      · exact Or.inr hni
    · exact nhCompatLoop_sound_cds hx

theorem visibleLoop_mono :
    ∀ {entries fts} {x : String}, x ∈ fts → x ∈ visibleLoop entries fts
  | [], _, _, hx => hx
  | (f, fd) :: rest, fts, x, hx => by
    rw [visibleLoop]
    split
    · exact visibleLoop_mono hx
    · split
      · exact visibleLoop_mono hx
      · exact visibleLoop_mono (mem_addU_of_mem hx)

theorem visibleLoop_sound :
    ∀ {entries fts} {x : String}, x ∈ visibleLoop entries fts →
      x ∈ fts ∨ ∃ fd : FieldDef, (x, fd) ∈ entries ∧
        fd.hidden = false ∧ fd.normallyHidden = false
  | [], _, _, hx => Or.inl hx
  | (f, fd) :: rest, fts, x, hx => by
    rw [visibleLoop] at hx
    split at hx
    · rcases visibleLoop_sound hx with hin | ⟨fd', hm, h1, h2⟩
      · exact Or.inl hin
      · exact Or.inr ⟨fd', List.mem_cons_of_mem _ hm, h1, h2⟩
    · split at hx
      · rcases visibleLoop_sound hx with hin | ⟨fd', hm, h1, h2⟩
        · exact Or.inl hin
        · exact Or.inr ⟨fd', List.mem_cons_of_mem _ hm, h1, h2⟩
      · rcases visibleLoop_sound hx with hin | ⟨fd', hm, h1, h2⟩
        · rcases mem_addU_iff.mp hin with hin | rfl
          · exact Or.inl hin
          · rename_i h1' h2'
            exact Or.inr ⟨fd, List.mem_cons_self _ _, by simpa using h1', by simpa using h2'⟩
        · exact Or.inr ⟨fd', List.mem_cons_of_mem _ hm, h1, h2⟩

theorem allDepsAddLoop_mono {si : SchemaInfo} :
    ∀ {deps acc}, (∀ {x : String}, x ∈ acc.1 → x ∈ (allDepsAddLoop si deps acc).1) ∧
      (∀ {x : String}, x ∈ acc.2 → x ∈ (allDepsAddLoop si deps acc).2)
  | [], acc => ⟨fun hx => hx, fun hx => hx⟩
  | dep :: rest, (fts, cds) => by
    rw [allDepsAddLoop]
    split
    · split
      · exact allDepsAddLoop_mono
      · constructor
        · exact fun hx => allDepsAddLoop_mono.1 (mem_addU_of_mem hx)
        · intro x hx
          refine allDepsAddLoop_mono.2 ?_
          split
          · exact mem_addU_of_mem hx
          · exact hx
    · exact allDepsAddLoop_mono

theorem allDepsAddLoop_mem (si : SchemaInfo) {dep : String} {dd : FieldDef}
    (hlk : lookupField si dep = some dd) (hh : dd.hidden = false) :
    ∀ {deps} (acc : List String × List String), dep ∈ deps →
      dep ∈ (allDepsAddLoop si deps acc).1 ∧
      (dd.normallyHidden = true → dep ∈ (allDepsAddLoop si deps acc).2)
  | [], _, hd => by simp at hd
  | d :: rest, (fts, cds), hd => by
    rcases List.mem_cons.mp hd with rfl | hd'
    · rw [allDepsAddLoop, hlk]
      dsimp only
      rw [hh]
      simp only [Bool.false_eq_true, if_false]
      refine ⟨allDepsAddLoop_mono.1 (self_mem_addU fts dep), fun hnh => ?_⟩
      refine allDepsAddLoop_mono.2 ?_
      rw [if_pos hnh]
      exact self_mem_addU cds dep
    · rw [allDepsAddLoop]
      split
      · split
        · exact allDepsAddLoop_mem si hlk hh _ hd'
        · exact allDepsAddLoop_mem si hlk hh _ hd'
      · exact allDepsAddLoop_mem si hlk hh _ hd'

theorem allDepsAddLoop_sound_fts {si : SchemaInfo} :
    ∀ {deps acc} {x : String}, x ∈ (allDepsAddLoop si deps acc).1 →
      x ∈ acc.1 ∨ ∃ dd : FieldDef, lookupField si x = some dd ∧ dd.hidden = false
  | [], _, _, hx => Or.inl hx
  | dep :: rest, (fts, cds), x, hx => by
    rw [allDepsAddLoop] at hx
    split at hx
    · rename_i dd' hlk'
      split at hx
      · exact allDepsAddLoop_sound_fts hx
      · rename_i hh'
        rcases allDepsAddLoop_sound_fts hx with hin | hrest
        · rcases mem_addU_iff.mp hin with hin | rfl
          · exact Or.inl hin
          · exact Or.inr ⟨dd', hlk', by simpa using hh'⟩
        · exact Or.inr hrest
    · exact allDepsAddLoop_sound_fts hx

theorem allDepsAddLoop_nh {si : SchemaInfo} {x : String} {dd : FieldDef}
    (hlk : lookupField si x = some dd) (hnh : dd.normallyHidden = true) :
    ∀ {deps acc}, x ∈ (allDepsAddLoop si deps acc).1 →
      x ∈ acc.1 ∨ x ∈ (allDepsAddLoop si deps acc).2
  | [], _, hx => Or.inl hx
  | dep :: rest, (fts, cds), hx => by
    rw [allDepsAddLoop] at hx ⊢
    cases hlk' : lookupField si dep with
    | none =>
      rw [hlk'] at hx
      dsimp only at hx ⊢
      exact allDepsAddLoop_nh hlk hnh hx
    | some dd' =>
      rw [hlk'] at hx
      dsimp only at hx ⊢
      by_cases hh' : dd'.hidden = true
      · rw [if_pos hh'] at hx ⊢
        exact allDepsAddLoop_nh hlk hnh hx
      · rw [if_neg hh'] at hx ⊢
        rcases allDepsAddLoop_nh hlk hnh hx with hin | hin
        · rcases mem_addU_iff.mp hin with hin2 | rfl
          · exact Or.inl hin2
          · right
            rw [hlk] at hlk'
            injection hlk' with hdd
            subst hdd
            refine allDepsAddLoop_mono.2 ?_
            rw [if_pos hnh]
            exact self_mem_addU cds x
        · exact Or.inr hin

theorem allComputedLoop_mono {si : SchemaInfo} :
    ∀ {cs acc}, (∀ {x : String}, x ∈ acc.1 → x ∈ (allComputedLoop si cs acc).1) ∧
      (∀ {x : String}, x ∈ acc.2 → x ∈ (allComputedLoop si cs acc).2)
  | [], acc => ⟨fun hx => hx, fun hx => hx⟩
  | (c, cd) :: rest, acc => by
    rw [allComputedLoop]
    exact ⟨fun hx => allComputedLoop_mono.1 (allDepsAddLoop_mono.1 hx),
      fun hx => allComputedLoop_mono.2 (allDepsAddLoop_mono.2 hx)⟩

theorem allComputedLoop_mem (si : SchemaInfo) {c dep : String} {cd : ComputedDef}
    {dd : FieldDef} (hdep : dep ∈ cd.dependencies) (hlk : lookupField si dep = some dd)
    (hh : dd.hidden = false) :
    ∀ {cs} (acc : List String × List String), (c, cd) ∈ cs →
      dep ∈ (allComputedLoop si cs acc).1 ∧
      (dd.normallyHidden = true → dep ∈ (allComputedLoop si cs acc).2)
  | [], _, hcs => by simp at hcs
  | (g, gd) :: rest, acc, hcs => by
    rcases List.mem_cons.mp hcs with heq | hcs'
    · injection heq with h1 h2
      subst h1
      subst h2
      rw [allComputedLoop]
      have hd := allDepsAddLoop_mem si hlk hh acc hdep
      exact ⟨allComputedLoop_mono.1 hd.1, fun hnh => allComputedLoop_mono.2 (hd.2 hnh)⟩
    · rw [allComputedLoop]
      exact allComputedLoop_mem si hdep hlk hh _ hcs'

theorem allComputedLoop_sound_fts {si : SchemaInfo} :
    ∀ {cs acc} {x : String}, x ∈ (allComputedLoop si cs acc).1 →
      x ∈ acc.1 ∨ ∃ dd : FieldDef, lookupField si x = some dd ∧ dd.hidden = false
  | [], _, _, hx => Or.inl hx
  | (c, cd) :: rest, acc, x, hx => by
    rw [allComputedLoop] at hx
    rcases allComputedLoop_sound_fts hx with hin | hrest
    · exact allDepsAddLoop_sound_fts hin
    · exact Or.inr hrest

theorem allComputedLoop_nh {si : SchemaInfo} {x : String} {dd : FieldDef}
    (hlk : lookupField si x = some dd) (hnh : dd.normallyHidden = true) :
    ∀ {cs acc}, x ∈ (allComputedLoop si cs acc).1 →
      x ∈ acc.1 ∨ x ∈ (allComputedLoop si cs acc).2
  | [], _, hx => Or.inl hx
  | (c, cd) :: rest, acc, hx => by
    rw [allComputedLoop] at hx ⊢
    rcases allComputedLoop_nh hlk hnh hx with hin | hin
    · rcases allDepsAddLoop_nh hlk hnh hin with hin2 | hin2
      · exact Or.inl hin2
      · exact Or.inr (allComputedLoop_mono.2 hin2)
    · exact Or.inr hin

theorem fkLoop_mono :
    ∀ {entries fts} {x : String}, x ∈ fts → x ∈ fkLoop entries fts
  | [], _, _, hx => hx
  | (f, fd) :: rest, fts, x, hx => by
    rw [fkLoop]
    split
    · exact fkLoop_mono (mem_addU_of_mem hx)
    · exact fkLoop_mono hx

theorem fkLoop_mem {f : String} {fd : FieldDef} (hbt : fd.belongsTo.isSome)
    (hh : fd.hidden = false) :
    ∀ {entries fts}, (f, fd) ∈ entries → f ∈ fkLoop entries fts
  | [], _, hm => by simp at hm
  | (g, gd) :: rest, fts, hm => by
    rcases List.mem_cons.mp hm with heq | hm'
    · injection heq with h1 h2
      subst h1
      subst h2
      rw [fkLoop, if_pos (by rw [hbt, hh]; rfl)]
      exact fkLoop_mono (self_mem_addU fts f)
    · rw [fkLoop]
      split
      · exact fkLoop_mem hbt hh hm'
      · exact fkLoop_mem hbt hh hm'

theorem fkLoop_sound :
    ∀ {entries fts} {x : String}, x ∈ fkLoop entries fts →
      x ∈ fts ∨ ∃ fd : FieldDef, (x, fd) ∈ entries ∧
        fd.belongsTo.isSome ∧ fd.hidden = false
  | [], _, _, hx => Or.inl hx
  | (f, fd) :: rest, fts, x, hx => by
    rw [fkLoop] at hx
    split at hx
    · rename_i hcond
      rcases fkLoop_sound hx with hin | ⟨fd', hm, h1, h2⟩
      · rcases mem_addU_iff.mp hin with hin | rfl
        · exact Or.inl hin
        · simp only [Bool.and_eq_true, Bool.not_eq_true'] at hcond
          exact Or.inr ⟨fd, List.mem_cons_self _ _, hcond.1, hcond.2⟩
      · exact Or.inr ⟨fd', List.mem_cons_of_mem _ hm, h1, h2⟩
    · rcases fkLoop_sound hx with hin | ⟨fd', hm, h1, h2⟩
      · exact Or.inl hin
      · exact Or.inr ⟨fd', List.mem_cons_of_mem _ hm, h1, h2⟩

theorem mem_addTruthyField_of_mem {o : Option String} {fts : List String} {x : String}
    (hx : x ∈ fts) : x ∈ addTruthyField o fts := by
  cases o with
  | none => exact hx
  | some s =>
    rw [addTruthyField]
    split
    · exact mem_addU_of_mem hx
    · exact hx

theorem self_mem_addTruthyField {s : String} (hs : s ≠ "") (fts : List String) :
    s ∈ addTruthyField (some s) fts := by
  rw [addTruthyField, if_pos (by simpa using hs)]
  exact self_mem_addU fts s

theorem mem_addTruthyField_elim {o : Option String} {fts : List String} {x : String}
    (hx : x ∈ addTruthyField o fts) : x ∈ fts ∨ (o = some x ∧ x ≠ "") := by
  cases o with
  | none => exact Or.inl hx
  | some s =>
    rw [addTruthyField] at hx
    split at hx
    · rcases mem_addU_iff.mp hx with hin | rfl
      · exact Or.inl hin
      · rename_i hne
        exact Or.inr ⟨rfl, by simpa using hne⟩
    · exact Or.inl hx

theorem polyFieldLoop_mono :
    ∀ {entries fts} {x : String}, x ∈ fts → x ∈ polyFieldLoop entries fts
  | [], _, _, hx => hx
  | (rn, rd) :: rest, fts, x, hx => by
    rw [polyFieldLoop]
    split
    · exact polyFieldLoop_mono (mem_addTruthyField_of_mem (mem_addTruthyField_of_mem hx))
    · exact polyFieldLoop_mono hx

theorem polyFieldLoop_mem_type {rn tf : String} {rd : PolyRel}
    (hp : rd.belongsToPolymorphic = true) (htf : rd.typeField = some tf) (hne : tf ≠ "") :
    ∀ {entries} (fts : List String), (rn, rd) ∈ entries → tf ∈ polyFieldLoop entries fts
  | [], _, hm => by simp at hm
  | (g, gd) :: rest, fts, hm => by
    rcases List.mem_cons.mp hm with heq | hm'
    · injection heq with h1 h2
      subst h1
      subst h2
      rw [polyFieldLoop, if_pos hp, htf]
      exact polyFieldLoop_mono (mem_addTruthyField_of_mem (self_mem_addTruthyField hne fts))
    · rw [polyFieldLoop]
      split
      · exact polyFieldLoop_mem_type hp htf hne _ hm'
      · exact polyFieldLoop_mem_type hp htf hne _ hm'

theorem polyFieldLoop_mem_id {rn idf : String} {rd : PolyRel}
    (hp : rd.belongsToPolymorphic = true) (hidf : rd.idField = some idf) (hne : idf ≠ "") :
    ∀ {entries} (fts : List String), (rn, rd) ∈ entries → idf ∈ polyFieldLoop entries fts
  | [], _, hm => by simp at hm
  | (g, gd) :: rest, fts, hm => by
    rcases List.mem_cons.mp hm with heq | hm'
    · injection heq with h1 h2
      subst h1
      subst h2
      rw [polyFieldLoop, if_pos hp, hidf]
      exact polyFieldLoop_mono (self_mem_addTruthyField hne _)
    · rw [polyFieldLoop]
      split
      · exact polyFieldLoop_mem_id hp hidf hne _ hm'
      · exact polyFieldLoop_mem_id hp hidf hne _ hm'

theorem polyFieldLoop_sound :
    ∀ {entries fts} {x : String}, x ∈ polyFieldLoop entries fts →
      x ∈ fts ∨ isPolyFieldOf entries x = true
  | [], _, _, hx => Or.inl hx
  | (rn, rd) :: rest, fts, x, hx => by
    rw [polyFieldLoop] at hx
    split at hx
    · rename_i hp
      rcases polyFieldLoop_sound hx with hin | hrest
      · rcases mem_addTruthyField_elim hin with hin2 | ⟨hid, hne⟩
        · rcases mem_addTruthyField_elim hin2 with hin3 | ⟨htf, hne⟩
          · exact Or.inl hin3
          · refine Or.inr ?_
            unfold isPolyFieldOf
            rw [List.any_cons]
            simp [hp, htf, hne]
        · refine Or.inr ?_
          unfold isPolyFieldOf
          rw [List.any_cons]
          simp [hp, hid, hne]
      · refine Or.inr ?_
        unfold isPolyFieldOf at hrest ⊢
        rw [List.any_cons, hrest]
        simp
    · rcases polyFieldLoop_sound hx with hin | hrest
      · exact Or.inl hin
      · refine Or.inr ?_
        unfold isPolyFieldOf at hrest ⊢
        rw [List.any_cons, hrest]
        simp

/-! ### Lemmas about the assembled field-selection pipelines -/

theorem sparseRest_fts_mono {si : SchemaInfo} {requested fts1 : List String} {x : String}
    (hx : x ∈ fts1) : x ∈ (sparseRest si requested fts1).fieldsToSelect := by
  unfold sparseRest
  dsimp only
  refine polyFieldLoop_mono (fkLoop_mono ?_)
  split
  · exact nhCompatLoop_mono.1 (reqComputedLoop_mono.1 hx)
  · exact reqComputedLoop_mono.1 hx

theorem sparseRest_fk {si : SchemaInfo} {requested fts1 : List String} {f : String}
    {fd : FieldDef} (hm : (f, fd) ∈ si.struct) (hbt : fd.belongsTo.isSome)
    (hh : fd.hidden = false) : f ∈ (sparseRest si requested fts1).fieldsToSelect := by
  unfold sparseRest
  dsimp only
  exact polyFieldLoop_mono (fkLoop_mem hbt hh hm)

theorem sparseRest_poly_type {si : SchemaInfo} {requested fts1 : List String}
    {rn tf : String} {rd : PolyRel} (hm : (rn, rd) ∈ si.rels)
    (hp : rd.belongsToPolymorphic = true) (htf : rd.typeField = some tf) (hne : tf ≠ "") :
    tf ∈ (sparseRest si requested fts1).fieldsToSelect := by
  unfold sparseRest
  dsimp only
  exact polyFieldLoop_mem_type hp htf hne _ hm

theorem sparseRest_poly_id {si : SchemaInfo} {requested fts1 : List String}
    {rn idf : String} {rd : PolyRel} (hm : (rn, rd) ∈ si.rels)
    (hp : rd.belongsToPolymorphic = true) (hidf : rd.idField = some idf) (hne : idf ≠ "") :
    idf ∈ (sparseRest si requested fts1).fieldsToSelect := by
  unfold sparseRest
  dsimp only
  exact polyFieldLoop_mem_id hp hidf hne _ hm

theorem sparseRest_deps {si : SchemaInfo} {requested fts1 : List String} {c dep : String}
    {cd : ComputedDef} {dd : FieldDef} (hc : c ∈ requested)
    (hcd : lookupComputed si c = some cd) (hdep : dep ∈ cd.dependencies)
    (hlk : lookupField si dep = some dd) (hh : dd.hidden = false) :
    dep ∈ (sparseRest si requested fts1).fieldsToSelect ∧
    (dep ∉ requested → dep ∈ (sparseRest si requested fts1).computedDependencies) := by
  unfold sparseRest
  dsimp only
  have hrc : c ∈ requested.filter (fun f => (lookupComputed si f).isSome) :=
    List.mem_filter.mpr ⟨hc, by simp [hcd]⟩
  have hd := reqComputedLoop_mem si requested hcd hdep hlk hh (fts1, []) hrc
  constructor
  · refine polyFieldLoop_mono (fkLoop_mono ?_)
    split
    · exact nhCompatLoop_mono.1 hd.1
    · exact hd.1
  · intro hnr
    split
    · exact nhCompatLoop_mono.2 (hd.2 hnr)
    · exact hd.2 hnr

theorem sparseRest_sound_fts {si : SchemaInfo} {requested fts1 : List String} {x : String}
    (hx : x ∈ (sparseRest si requested fts1).fieldsToSelect) :
    x ∈ fts1 ∨ (∃ fd : FieldDef, lookupField si x = some fd ∧ fd.hidden = false) ∨
      (∃ fd : FieldDef, (x, fd) ∈ si.struct ∧ fd.hidden = false) ∨
      isPolyFieldOf si.rels x = true := by
  unfold sparseRest at hx
  dsimp only at hx
  rcases polyFieldLoop_sound hx with hx | hpoly
  · rcases fkLoop_sound hx with hx | ⟨fd, hm, _, hh⟩
    · have hx2 : x ∈ (reqComputedLoop si requested
          (requested.filter (fun f => (lookupComputed si f).isSome)) (fts1, [])).1 ∨
          ∃ fd : FieldDef, (x, fd) ∈ si.struct ∧ fd.hidden = false := by
        revert hx
        split
        · intro hx
          rcases nhCompatLoop_sound_fts hx with hx | ⟨fd, hm, _, hh⟩
          · exact Or.inl hx
          · exact Or.inr ⟨fd, hm, hh⟩
        · exact Or.inl
      rcases hx2 with hx2 | hmem
      · rcases reqComputedLoop_sound_fts hx2 with hx3 | hlk
        · exact Or.inl hx3
        · exact Or.inr (Or.inl hlk)
      · exact Or.inr (Or.inr (Or.inl hmem))
    · exact Or.inr (Or.inr (Or.inl ⟨fd, hm, hh⟩))
  · exact Or.inr (Or.inr (Or.inr hpoly))

theorem sparseRest_sound_cds {si : SchemaInfo} {requested fts1 : List String} {x : String}
    (hx : x ∈ (sparseRest si requested fts1).computedDependencies) : x ∉ requested := by
  unfold sparseRest at hx
  dsimp only at hx
  have hx2 : x ∈ (reqComputedLoop si requested
      (requested.filter (fun f => (lookupComputed si f).isSome)) (fts1, [])).2 ∨
      x ∉ requested := by
    revert hx
    split
    · intro hx
      exact nhCompatLoop_sound_cds hx
    · exact Or.inl
  rcases hx2 with hx2 | hni
  · rcases reqComputedLoop_sound_cds hx2 with hx3 | hni
    · simp at hx3
    · exact hni
  · exact hni

theorem noSparseOut_id {si : SchemaInfo} {req : Option (List String)} :
    idSelect si.idProperty ∈ (noSparseOut si req).fieldsToSelect := by
  unfold noSparseOut
  dsimp only
  refine polyFieldLoop_mono (fkLoop_mono (allComputedLoop_mono.1 (visibleLoop_mono ?_)))
  simp

theorem noSparseOut_fk {si : SchemaInfo} {req : Option (List String)} {f : String}
    {fd : FieldDef} (hm : (f, fd) ∈ si.struct) (hbt : fd.belongsTo.isSome)
    (hh : fd.hidden = false) : f ∈ (noSparseOut si req).fieldsToSelect := by
  unfold noSparseOut
  dsimp only
  exact polyFieldLoop_mono (fkLoop_mem hbt hh hm)

theorem noSparseOut_poly_type {si : SchemaInfo} {req : Option (List String)}
    {rn tf : String} {rd : PolyRel} (hm : (rn, rd) ∈ si.rels)
    (hp : rd.belongsToPolymorphic = true) (htf : rd.typeField = some tf) (hne : tf ≠ "") :
    tf ∈ (noSparseOut si req).fieldsToSelect := by
  unfold noSparseOut
  dsimp only
  exact polyFieldLoop_mem_type hp htf hne _ hm

theorem noSparseOut_poly_id {si : SchemaInfo} {req : Option (List String)}
    {rn idf : String} {rd : PolyRel} (hm : (rn, rd) ∈ si.rels)
    (hp : rd.belongsToPolymorphic = true) (hidf : rd.idField = some idf) (hne : idf ≠ "") :
    idf ∈ (noSparseOut si req).fieldsToSelect := by
  unfold noSparseOut
  dsimp only
  exact polyFieldLoop_mem_id hp hidf hne _ hm

theorem noSparseOut_deps {si : SchemaInfo} {req : Option (List String)} {c dep : String}
    {cd : ComputedDef} {dd : FieldDef} (hm : (c, cd) ∈ si.computed)
    (hdep : dep ∈ cd.dependencies) (hlk : lookupField si dep = some dd)
    (hh : dd.hidden = false) :
    dep ∈ (noSparseOut si req).fieldsToSelect ∧
    (dd.normallyHidden = true → dep ∈ (noSparseOut si req).computedDependencies) := by
  unfold noSparseOut
  dsimp only
  have hd := allComputedLoop_mem si hdep hlk hh
    (visibleLoop si.struct [idSelect si.idProperty], []) hm
  exact ⟨polyFieldLoop_mono (fkLoop_mono hd.1), hd.2⟩

theorem noSparseOut_sound_fts {si : SchemaInfo} {req : Option (List String)} {x : String}
    (hx : x ∈ (noSparseOut si req).fieldsToSelect) :
    x = idSelect si.idProperty ∨
      (∃ fd : FieldDef, lookupField si x = some fd ∧ fd.hidden = false) ∨
      (∃ fd : FieldDef, (x, fd) ∈ si.struct ∧ fd.hidden = false) ∨
      isPolyFieldOf si.rels x = true := by
  unfold noSparseOut at hx
  dsimp only at hx
  rcases polyFieldLoop_sound hx with hx | hpoly
  · rcases fkLoop_sound hx with hx | ⟨fd, hm, _, hh⟩
    · rcases allComputedLoop_sound_fts hx with hx | hlk
      · rcases visibleLoop_sound hx with hx | ⟨fd, hm, hh, _⟩
        · simp at hx
          exact Or.inl hx
        · exact Or.inr (Or.inr (Or.inl ⟨fd, hm, hh⟩))
      · exact Or.inr (Or.inl hlk)
    · exact Or.inr (Or.inr (Or.inl ⟨fd, hm, hh⟩))
  · exact Or.inr (Or.inr (Or.inr hpoly))

theorem noSparseOut_nh {si : SchemaInfo} {req : Option (List String)} {x : String}
    {fd : FieldDef} (hnd : (si.struct.map Prod.fst).Nodup)
    (hlk : lookupField si x = some fd) (hnh : fd.normallyHidden = true)
    (hbt : fd.belongsTo = none) (hpoly : isPolyFieldOf si.rels x = false)
    (hid : x ≠ idSelect si.idProperty)
    (hx : x ∈ (noSparseOut si req).fieldsToSelect) :
    x ∈ (noSparseOut si req).computedDependencies := by
  unfold noSparseOut at hx ⊢
  dsimp only at hx ⊢
  rcases polyFieldLoop_sound hx with hx | hp
  · rcases fkLoop_sound hx with hx | ⟨fd', hm, hbt', _⟩
    · rcases allComputedLoop_nh hlk hnh hx with hx | hcds
      · rcases visibleLoop_sound hx with hx | ⟨fd', hm, _, hnh'⟩
        · simp at hx
          exact absurd hx hid
        · have hlk2 : lookupField si x = some fd' := lookupA_eq_of_mem_nodup hm hnd
          rw [hlk] at hlk2
          injection hlk2 with h
          subst h
          rw [hnh] at hnh'
          exact absurd hnh' (by simp)
      · exact hcds
    · have hlk2 : lookupField si x = some fd' := lookupA_eq_of_mem_nodup hm hnd
      rw [hlk] at hlk2
      injection hlk2 with h
      subst h
      rw [hbt] at hbt'
      exact absurd hbt' (by simp)
  · rw [hp] at hpoly
    exact absurd hpoly (by simp)

theorem buildFieldSelection_cases {si : SchemaInfo} {scopeName : String}
    {req : Option (List String)} {out : FieldSelection}
    (h : buildFieldSelection si scopeName req = .ok out) :
    (∃ requested fts1, sparseReq req = some requested ∧
      sparseReqLoop si scopeName requested [idSelect si.idProperty] = .ok fts1 ∧
      out = sparseRest si requested fts1) ∨
    (sparseReq req = none ∧ out = noSparseOut si req) := by
  unfold buildFieldSelection at h
  cases hs : sparseReq req with
  | some requested =>
    rw [hs] at h
    dsimp only at h
    cases hloop : sparseReqLoop si scopeName requested [idSelect si.idProperty] with
    | error e =>
      rw [hloop] at h
      simp at h
    | ok fts1 =>
      rw [hloop] at h
      injection h with h2
      exact Or.inl ⟨requested, fts1, rfl, hloop, h2.symm⟩
  | none =>
    rw [hs] at h
    injection h with h2
    exact Or.inr ⟨rfl, h2.symm⟩

theorem buildFieldSelection_error_of {si : SchemaInfo} {scopeName : String}
    {req : Option (List String)} {requested : List String} {e : String}
    (hs : sparseReq req = some requested)
    (hloop : sparseReqLoop si scopeName requested [idSelect si.idProperty] = .error e) :
    buildFieldSelection si scopeName req = .error e := by
  unfold buildFieldSelection
  rw [hs]
  dsimp only
  rw [hloop]

theorem sparseReqLoop_error_sound {si : SchemaInfo} {scopeName : String} :
    ∀ {req fts e}, sparseReqLoop si scopeName req fts = .error e →
      ∃ f ∈ req, isNonDatabaseField si f = false ∧ lookupField si f = none
  | [], _, _, h => by simp [sparseReqLoop] at h
  | g :: rest, fts, e, h => by
    rw [sparseReqLoop] at h
    split at h
    · rcases sparseReqLoop_error_sound h with ⟨f, hf, h1, h2⟩
      exact ⟨f, List.mem_cons_of_mem g hf, h1, h2⟩
    · rename_i hdb
      split at h
      · rename_i hlk
        exact ⟨g, List.mem_cons_self g rest, by simpa using hdb, hlk⟩
      · split at h
        · rcases sparseReqLoop_error_sound h with ⟨f, hf, h1, h2⟩
          exact ⟨f, List.mem_cons_of_mem g hf, h1, h2⟩
        · rcases sparseReqLoop_error_sound h with ⟨f, hf, h1, h2⟩
          exact ⟨f, List.mem_cons_of_mem g hf, h1, h2⟩

theorem buildFieldSelection_error_sound {si : SchemaInfo} {scopeName : String}
    {req : Option (List String)} {e : String}
    (h : buildFieldSelection si scopeName req = .error e) :
    ∃ requested, sparseReq req = some requested ∧
      ∃ f ∈ requested, isNonDatabaseField si f = false ∧ lookupField si f = none := by
  unfold buildFieldSelection at h
  cases hs : sparseReq req with
  | none =>
    rw [hs] at h
    simp at h
  | some requested =>
    rw [hs] at h
    dsimp only at h
    cases hloop : sparseReqLoop si scopeName requested [idSelect si.idProperty] with
    | ok fts1 =>
      rw [hloop] at h
      simp at h
    | error e' => exact ⟨requested, rfl, sparseReqLoop_error_sound hloop⟩

/-! ### Claim theorems: field selection -/

/-- **C1** (amended): whenever `buildFieldSelection` succeeds, its
`fieldsToSelect` contains the identity column (as `id`, or aliased
`<idProperty> as id`), every `belongsTo` foreign-key column **that is not
marked hidden**, and every truthy polymorphic `typeField`/`idField` column
declared in the schema relationships — regardless of the requested fields.
The original claim, without the non-hidden qualification, is refuted by
`buildFieldSelection_hidden_fk_counterexample`. -/
theorem buildFieldSelection_includes_id_fk_poly
    (si : SchemaInfo) (scopeName : String) (req : Option (List String))
    (out : FieldSelection) (h : buildFieldSelection si scopeName req = .ok out) :
    idSelect si.idProperty ∈ out.fieldsToSelect ∧
    (∀ f fd, (f, fd) ∈ si.struct → fd.belongsTo.isSome → fd.hidden = false →
      f ∈ out.fieldsToSelect) ∧
    (∀ rn rd tf idf, (rn, rd) ∈ si.rels → rd.belongsToPolymorphic = true →
      (rd.typeField = some tf → tf ≠ "" → tf ∈ out.fieldsToSelect) ∧
      (rd.idField = some idf → idf ≠ "" → idf ∈ out.fieldsToSelect)) := by
  rcases buildFieldSelection_cases h with ⟨requested, fts1, hs, hloop, rfl⟩ | ⟨hs, rfl⟩
  · refine ⟨?_, ?_, ?_⟩
    · exact sparseRest_fts_mono (sparseReqLoop_mono hloop (by simp))
    · exact fun f fd hm hbt hh => sparseRest_fk hm hbt hh
    · exact fun rn rd tf idf hm hp =>
        ⟨fun htf hne => sparseRest_poly_type hm hp htf hne,
         fun hidf hne => sparseRest_poly_id hm hp hidf hne⟩
  · refine ⟨noSparseOut_id, ?_, ?_⟩
    · exact fun f fd hm hbt hh => noSparseOut_fk hm hbt hh
    · exact fun rn rd tf idf hm hp =>
        ⟨fun htf hne => noSparseOut_poly_type hm hp htf hne,
         fun hidf hne => noSparseOut_poly_id hm hp hidf hne⟩

/-- **C1** counterexample to the claim as stated: in `bookSchema` the
`owner_id` column is a `belongsTo` foreign key marked `hidden`, and
`buildFieldSelection` (no sparse fieldset) does not select it. -/
theorem buildFieldSelection_hidden_fk_counterexample :
    buildFieldSelection bookSchema "books" none =
      .ok ⟨["id", "title", "price", "author_id", "cost",
            "commentable_type", "commentable_id"], none, ["cost"], "id"⟩ ∧
    ("owner_id",
      { belongsTo := some "people", as := some "owner",
        hidden := true, normallyHidden := false }) ∈ bookSchema.struct ∧
    "owner_id" ∉ ["id", "title", "price", "author_id", "cost",
                  "commentable_type", "commentable_id"] :=
  ⟨rfl, by decide, by decide⟩

/-- Witness for the amended C1 at a concrete schema and request. -/
theorem buildFieldSelection_includes_id_fk_poly_witness :
    "id" ∈ (noSparseOut bookSchema none).fieldsToSelect ∧
    "author_id" ∈ (noSparseOut bookSchema none).fieldsToSelect ∧
    "commentable_type" ∈ (noSparseOut bookSchema none).fieldsToSelect ∧
    "commentable_id" ∈ (noSparseOut bookSchema none).fieldsToSelect := by
  have h := buildFieldSelection_includes_id_fk_poly bookSchema "books" none
    (noSparseOut bookSchema none) rfl
  refine ⟨h.1, ?_, ?_, ?_⟩
  · exact h.2.1 "author_id"
      { belongsTo := some "authors", as := some "author",
        hidden := false, normallyHidden := false } (by decide) (by decide) (by decide)
  · exact (h.2.2 "commentable"
      { belongsToPolymorphic := true, typeField := some "commentable_type",
        idField := some "commentable_id" } "commentable_type" "commentable_id"
      (by decide) (by decide)).1 (by decide) (by decide)
  · exact (h.2.2 "commentable"
      { belongsToPolymorphic := true, typeField := some "commentable_type",
        idField := some "commentable_id" } "commentable_type" "commentable_id"
      (by decide) (by decide)).2 (by decide) (by decide)

/-- **C9** (confirmed): a requested sparse field that is neither a schema
column nor computed/virtual makes `buildFieldSelection` throw an error
naming the first such field, before any selection is returned; a request
whose names are all columns or computed/virtual fields never triggers the
error, and every error arises from such an unknown name. -/
theorem buildFieldSelection_unknown_sparse_field
    (si : SchemaInfo) (scopeName : String) (req : Option (List String)) :
    (∀ requested pre f post, sparseReq req = some requested →
      requested = pre ++ f :: post →
      (∀ g ∈ pre, isNonDatabaseField si g = true ∨ (lookupField si g).isSome) →
      isNonDatabaseField si f = false → lookupField si f = none →
      buildFieldSelection si scopeName req = .error (unknownFieldMsg f scopeName)) ∧
    (∀ requested, sparseReq req = some requested →
      (∀ g ∈ requested, isNonDatabaseField si g = true ∨ (lookupField si g).isSome) →
      ∃ out, buildFieldSelection si scopeName req = .ok out) ∧
    (∀ e, buildFieldSelection si scopeName req = .error e →
      ∃ requested, sparseReq req = some requested ∧
        ∃ f ∈ requested, isNonDatabaseField si f = false ∧ lookupField si f = none) := by
  refine ⟨?_, ?_, ?_⟩
  · intro requested pre f post hs hreq hpre hdb hlk
    subst hreq
    exact buildFieldSelection_error_of hs
      (sparseReqLoop_error_at scopeName hdb hlk pre post [idSelect si.idProperty] hpre)
  · intro requested hs hall
    rcases sparseReqLoop_ok_of scopeName requested [idSelect si.idProperty] hall
      with ⟨fts1, hloop⟩
    refine ⟨sparseRest si requested fts1, ?_⟩
    unfold buildFieldSelection
    rw [hs]
    dsimp only
    rw [hloop]
  · exact fun e he => buildFieldSelection_error_sound he

/-- Witness for C9: requesting the unknown field `typo` (after the valid
`title`) errors with the message naming it; requesting only known and
computed fields succeeds. -/
theorem buildFieldSelection_unknown_sparse_field_witness :
    buildFieldSelection bookSchema "books" (some ["title", "typo"]) =
      .error (unknownFieldMsg "typo" "books") := by
  have h := buildFieldSelection_unknown_sparse_field bookSchema "books"
    (some ["title", "typo"])
  exact h.1 ["title", "typo"] ["title"] "typo" [] (by decide) (by decide)
    (by decide) (by decide) (by decide)

/-- **C5** (amended): a dependency column of a requested computed field (or
of any computed field when no sparse fieldset is given) is fetched provided
it exists in the schema and is **not marked hidden**; when fetched only for
the computation (not explicitly requested, resp. normally hidden), it is
recorded in `computedDependencies` for removal from the response.  The
original claim, which demanded fetching of every dependency, is refuted by
`buildFieldSelection_hidden_dependency_counterexample`. -/
theorem buildFieldSelection_computed_dependencies
    (si : SchemaInfo) (scopeName : String) (req : Option (List String))
    (out : FieldSelection) (h : buildFieldSelection si scopeName req = .ok out) :
    (∀ requested c cd dep dd, sparseReq req = some requested → c ∈ requested →
      lookupComputed si c = some cd → dep ∈ cd.dependencies →
      lookupField si dep = some dd → dd.hidden = false →
      dep ∈ out.fieldsToSelect ∧ (dep ∉ requested → dep ∈ out.computedDependencies)) ∧
    (sparseReq req = none →
      ∀ c cd dep dd, (c, cd) ∈ si.computed → dep ∈ cd.dependencies →
        lookupField si dep = some dd → dd.hidden = false →
        dep ∈ out.fieldsToSelect ∧
        (dd.normallyHidden = true → dep ∈ out.computedDependencies)) := by
  rcases buildFieldSelection_cases h with ⟨requested, fts1, hs, hloop, rfl⟩ | ⟨hs, rfl⟩
  · constructor
    · intro requested' c cd dep dd hs' hc hcd hdep hlk hh
      rw [hs] at hs'
      injection hs' with h2
      subst h2
      exact sparseRest_deps hc hcd hdep hlk hh
    · intro hn
      rw [hs] at hn
      cases hn
  · constructor
    · intro requested' c cd dep dd hs' hc hcd hdep hlk hh
      rw [hs] at hs'
      cases hs'
    · intro _ c cd dep dd hm hdep hlk hh
      exact noSparseOut_deps hm hdep hlk hh

/-- **C5** counterexample to the claim as stated: the computed field
`secret_sum` of `bookSchema` depends on the hidden column `secret`; when
`secret_sum` is requested, `secret` is **not** fetched
(knex-field-helpers.js:140 skips hidden dependencies). -/
theorem buildFieldSelection_hidden_dependency_counterexample :
    buildFieldSelection bookSchema "books" (some ["secret_sum"]) =
      .ok ⟨["id", "cost", "author_id", "commentable_type", "commentable_id"],
           some ["secret_sum"], ["cost"], "id"⟩ ∧
    lookupComputed bookSchema "secret_sum" = some { dependencies := ["secret"] } ∧
    "secret" ∉ ["id", "cost", "author_id", "commentable_type", "commentable_id"] :=
  ⟨rfl, by decide, by decide⟩

/-- Witness for the amended C5: requesting `profit_margin` fetches its
dependency `cost` (not itself requested) and records it for removal. -/
theorem buildFieldSelection_computed_dependencies_witness :
    "cost" ∈ (sparseRest bookSchema ["profit_margin"] ["id"]).fieldsToSelect ∧
    "cost" ∈ (sparseRest bookSchema ["profit_margin"] ["id"]).computedDependencies := by
  have h := buildFieldSelection_computed_dependencies bookSchema "books"
    (some ["profit_margin"]) (sparseRest bookSchema ["profit_margin"] ["id"]) rfl
  have hd := h.1 ["profit_margin"] "profit_margin" { dependencies := ["price", "cost"] }
    "cost" { normallyHidden := true } (by decide) (by decide) (by decide) (by decide)
    (by decide) (by decide)
  exact ⟨hd.1, hd.2 (by decide)⟩

/-- **C6** (amended): (a) a field marked `hidden` is never selected — unless
it doubles as a polymorphic `typeField`/`idField`, which
knex-field-helpers.js:210-217 always fetches with no hidden check (the
original unconditional claim is refuted by
`buildFieldSelection_hidden_poly_counterexample`); (b) with no sparse
fieldset, a `normallyHidden` field (that is not a foreign-key, polymorphic
or identity column) can be selected only as a computed dependency, in which
case it is recorded in `computedDependencies` for removal from the response;
(c) a `normallyHidden` field explicitly requested in a sparse fieldset is
selected and not stripped. -/
theorem buildFieldSelection_hidden_fields
    (si : SchemaInfo) (scopeName : String) (req : Option (List String))
    (out : FieldSelection) (h : buildFieldSelection si scopeName req = .ok out)
    (hnd : (si.struct.map Prod.fst).Nodup) :
    (∀ f fd, lookupField si f = some fd → fd.hidden = true →
      isPolyFieldOf si.rels f = false → f ≠ idSelect si.idProperty →
      f ∉ out.fieldsToSelect) ∧
    (sparseReq req = none →
      ∀ f fd, lookupField si f = some fd → fd.normallyHidden = true →
        fd.belongsTo = none → isPolyFieldOf si.rels f = false →
        f ≠ idSelect si.idProperty →
        f ∈ out.fieldsToSelect → f ∈ out.computedDependencies) ∧
    (∀ requested f fd, sparseReq req = some requested → f ∈ requested →
      isNonDatabaseField si f = false → lookupField si f = some fd →
      fd.normallyHidden = true → fd.hidden = false →
      f ∈ out.fieldsToSelect ∧ f ∉ out.computedDependencies) := by
  rcases buildFieldSelection_cases h with ⟨requested, fts1, hs, hloop, rfl⟩ | ⟨hs, rfl⟩
  · refine ⟨?_, ?_, ?_⟩
    · intro f fd hlk hh hpoly hid hmem
      rcases sparseRest_sound_fts hmem with hmem | ⟨fd', hlk', hh'⟩ | ⟨fd', hm', hh'⟩ | hp
      · rcases sparseReqLoop_sound hloop hmem with hmem | ⟨fd', hlk', hh'⟩
        · simp at hmem
          exact hid hmem
        · rw [hlk] at hlk'
          injection hlk' with h2
          subst h2
          rw [hh] at hh'
          exact absurd hh' (by simp)
      · rw [hlk] at hlk'
        injection hlk' with h2
        subst h2
        rw [hh] at hh'
        exact absurd hh' (by simp)
      · have hlk2 : lookupField si f = some fd' := lookupA_eq_of_mem_nodup hm' hnd
        rw [hlk] at hlk2
        injection hlk2 with h2
        subst h2
        rw [hh] at hh'
        exact absurd hh' (by simp)
      · rw [hp] at hpoly
        exact absurd hpoly (by simp)
    · intro hn
      rw [hs] at hn
      cases hn
    · intro requested' f fd hs' hc hdb hlk hnh hh
      rw [hs] at hs'
      injection hs' with h2
      subst h2
      constructor
      · exact sparseRest_fts_mono (sparseReqLoop_mem hdb hlk hh hloop hc)
      · exact fun hcds => absurd hc (sparseRest_sound_cds hcds)
  · refine ⟨?_, ?_, ?_⟩
    · intro f fd hlk hh hpoly hid hmem
      rcases noSparseOut_sound_fts hmem with hmem | ⟨fd', hlk', hh'⟩ | ⟨fd', hm', hh'⟩ | hp
      · exact hid hmem
      · rw [hlk] at hlk'
        injection hlk' with h2
        subst h2
        rw [hh] at hh'
        exact absurd hh' (by simp)
      · have hlk2 : lookupField si f = some fd' := lookupA_eq_of_mem_nodup hm' hnd
        rw [hlk] at hlk2
        injection hlk2 with h2
        subst h2
        rw [hh] at hh'
        exact absurd hh' (by simp)
      · rw [hp] at hpoly
        exact absurd hpoly (by simp)
    · intro _ f fd hlk hnh hbt hpoly hid hmem
      exact noSparseOut_nh hnd hlk hnh hbt hpoly hid hmem
    · intro requested' f fd hs' hc hdb hlk hnh hh
      rw [hs] at hs'
      cases hs'

/-- **C6** counterexample to the claim as stated: in `polyHiddenSchema` the
column `commentable_type` is marked `hidden`, yet it is in the selected
field set because it is a polymorphic `typeField`. -/
theorem buildFieldSelection_hidden_poly_counterexample :
    buildFieldSelection polyHiddenSchema "comments" none =
      .ok ⟨["id", "body", "commentable_id", "commentable_type"], none, [], "id"⟩ ∧
    lookupField polyHiddenSchema "commentable_type" =
      some { belongsTo := none, as := none, hidden := true, normallyHidden := false } ∧
    "commentable_type" ∈ ["id", "body", "commentable_id", "commentable_type"] :=
  ⟨rfl, by decide, by decide⟩

/-- Witness for the amended C6: with the sparse request `title,cost`, the
hidden field `secret` is not selected while the normally-hidden `cost`
(explicitly requested) is selected and not stripped. -/
theorem buildFieldSelection_hidden_fields_witness :
    "secret" ∉ (sparseRest bookSchema ["title", "cost"]
      ["id", "title", "cost"]).fieldsToSelect ∧
    "cost" ∈ (sparseRest bookSchema ["title", "cost"]
      ["id", "title", "cost"]).fieldsToSelect ∧
    "cost" ∉ (sparseRest bookSchema ["title", "cost"]
      ["id", "title", "cost"]).computedDependencies := by
  have h := buildFieldSelection_hidden_fields bookSchema "books"
    (some ["title", "cost"])
    (sparseRest bookSchema ["title", "cost"] ["id", "title", "cost"]) rfl (by decide)
  refine ⟨?_, ?_⟩
  · exact h.1 "secret" { hidden := true } (by decide) (by decide) (by decide) (by decide)
  · exact h.2.2 ["title", "cost"] "cost" { normallyHidden := true } (by decide)
      (by decide) (by decide) (by decide) (by decide) (by decide)

/-! ### Lemmas about document assembly -/

theorem lookupA_filter_none {α : Type} {l : List (String × α)} {k : String}
    {p : String × α → Bool} (hp : ∀ v, p (k, v) = false) :
    lookupA (l.filter p) k = none := by
  induction l with
  | nil => rfl
  | cons q rest ih =>
    rw [List.filter_cons]
    split
    · rename_i hq
      rw [lookupA_cons]
      by_cases hk : q.1 = k
      · exfalso
        have hq2 : q = (k, q.2) := Prod.ext_iff.mpr ⟨hk, rfl⟩
        rw [hq2, hp q.2] at hq
        cases hq
      · rw [if_neg hk]
        exact ih
    · exact ih

theorem lookupA_filter_none_of_none {α : Type} {l : List (String × α)} {k : String}
    {p : String × α → Bool} (h : lookupA l k = none) :
    lookupA (l.filter p) k = none := by
  induction l with
  | nil => rfl
  | cons q rest ih =>
    rw [lookupA_cons] at h
    by_cases hk : q.1 = k
    · rw [if_pos hk] at h
      cases h
    · rw [if_neg hk] at h
      rw [List.filter_cons]
      split
      · rw [lookupA_cons, if_neg hk]
        exact ih h
      · exact ih h

theorem mem_getForeignKeyFields {struct : List (String × FieldDef)} {f : String}
    {fd : FieldDef} (hm : (f, fd) ∈ struct) (hbt : fd.belongsTo.isSome) :
    f ∈ getForeignKeyFields struct := by
  unfold getForeignKeyFields
  refine List.mem_filterMap.mpr ⟨(f, fd), hm, ?_⟩
  simp [hbt]

/-- **C3** (confirmed): a record converted by `toJsonApiRecord` has top-level
`id = String(identity value)`, `type = scopeName`, and its attributes
contain neither the (aliased) identity key, nor the `idProperty` column, nor
any `belongsTo` foreign-key column, nor any polymorphic
`typeField`/`idField` column. -/
theorem toJsonApiRecord_attributes
    (si : SchemaInfo) (scopeName : String) (record : Record) (v : DBVal)
    (hid : getField record "id" = some v) :
    (toJsonApiRecord si scopeName record).id = jsString v ∧
    (toJsonApiRecord si scopeName record).type = scopeName ∧
    lookupA (toJsonApiRecord si scopeName record).attributes "id" = none ∧
    lookupA (toJsonApiRecord si scopeName record).attributes si.idProperty = none ∧
    (∀ f fd, (f, fd) ∈ si.struct → fd.belongsTo.isSome →
      lookupA (toJsonApiRecord si scopeName record).attributes f = none) ∧
    (∀ rn rd tf, (rn, rd) ∈ si.rels → rd.belongsToPolymorphic = true →
      rd.typeField = some tf → tf ≠ "" →
      lookupA (toJsonApiRecord si scopeName record).attributes tf = none) ∧
    (∀ rn rd idf, (rn, rd) ∈ si.rels → rd.belongsToPolymorphic = true →
      rd.idField = some idf → idf ≠ "" →
      lookupA (toJsonApiRecord si scopeName record).attributes idf = none) := by
  have hexcl : ∀ k : String,
      attrExcluded si.struct (polymorphicFieldsOf si.rels) si.idProperty k = true →
      lookupA (toJsonApiRecord si scopeName record).attributes k = none := by
    intro k hk
    unfold toJsonApiRecord toJsonApi
    dsimp only
    exact lookupA_filter_none (fun v => by rw [hk]; rfl)
  refine ⟨?_, rfl, ?_, ?_, ?_, ?_, ?_⟩
  · unfold toJsonApiRecord toJsonApi
    dsimp only
    rw [hid]
    rfl
  · unfold toJsonApiRecord toJsonApi
    dsimp only
    refine lookupA_filter_none_of_none (lookupA_filter_none ?_)
    intro v
    simp
  · refine hexcl si.idProperty ?_
    unfold attrExcluded
    simp
  · intro f fd hm hbt
    refine hexcl f ?_
    unfold attrExcluded
    rw [Bool.or_eq_true, Bool.or_eq_true, Bool.or_eq_true]
    refine Or.inl (Or.inl (Or.inl ?_))
    simpa using mem_getForeignKeyFields hm hbt
  · intro rn rd tf hm hp htf hne
    refine hexcl tf ?_
    unfold attrExcluded
    rw [Bool.or_eq_true, Bool.or_eq_true, Bool.or_eq_true]
    refine Or.inl (Or.inl (Or.inr ?_))
    simpa using polyFieldLoop_mem_type hp htf hne [] hm
  · intro rn rd idf hm hp hidf hne
    refine hexcl idf ?_
    unfold attrExcluded
    rw [Bool.or_eq_true, Bool.or_eq_true, Bool.or_eq_true]
    refine Or.inl (Or.inl (Or.inr ?_))
    simpa using polyFieldLoop_mem_id hp hidf hne [] hm

/-- Witness for C3 at a concrete record with every kind of column present. -/
theorem toJsonApiRecord_attributes_witness :
    (toJsonApiRecord bookSchema "books" bookRecord).id = jsString (DBVal.vInt 1) ∧
    lookupA (toJsonApiRecord bookSchema "books" bookRecord).attributes "id" = none ∧
    lookupA (toJsonApiRecord bookSchema "books" bookRecord).attributes "author_id" = none ∧
    lookupA (toJsonApiRecord bookSchema "books" bookRecord).attributes
      "commentable_type" = none ∧
    lookupA (toJsonApiRecord bookSchema "books" bookRecord).attributes
      "commentable_id" = none := by
  have h := toJsonApiRecord_attributes bookSchema "books" bookRecord (DBVal.vInt 1)
    (by decide)
  refine ⟨h.1, h.2.2.1, ?_, ?_, ?_⟩
  · exact h.2.2.2.2.1 "author_id"
      { belongsTo := some "authors", as := some "author",
        hidden := false, normallyHidden := false } (by decide) (by decide)
  · exact h.2.2.2.2.2.1 "commentable"
      { belongsToPolymorphic := true, typeField := some "commentable_type",
        idField := some "commentable_id" } "commentable_type"
      (by decide) (by decide) (by decide) (by decide)
  · exact h.2.2.2.2.2.2 "commentable"
      { belongsToPolymorphic := true, typeField := some "commentable_type",
        idField := some "commentable_id" } "commentable_id"
      (by decide) (by decide) (by decide) (by decide)

/-! ### Lemmas about the relationship loops -/

theorem lookupA_isEmpty_false {α : Type} {l : List (String × α)} {k : String} {v : α}
    (h : lookupA l k = some v) : l.isEmpty = false := by
  cases l with
  | nil => cases h
  | cons p rest => rfl

theorem bjrBelongsToLoop_preserve {rec : Record} {scopeName idStr base : String}
    {a : String} {e : RelEntry} :
    ∀ {entries rels}, lookupA rels a = some e →
      lookupA (bjrBelongsToLoop rec scopeName idStr base entries rels) a = some e
  | [], rels, h => h
  | (f, fd) :: rest, rels, h => by
    rw [bjrBelongsToLoop]
    cases hbt : fd.belongsTo with
    | none =>
      dsimp only
      exact bjrBelongsToLoop_preserve h
    | some t =>
      cases has : fd.as with
      | none =>
        dsimp only
        exact bjrBelongsToLoop_preserve h
      | some a' =>
        cases hgf : getField rec f with
        | none =>
          dsimp only
          exact bjrBelongsToLoop_preserve h
        | some v =>
          dsimp only
          split
          · exact bjrBelongsToLoop_preserve h
          · refine bjrBelongsToLoop_preserve ?_
            rw [lookupA_append, h]

theorem bjrBelongsToLoop_found {rec : Record} {scopeName idStr base : String}
    {f a t : String} {fd : FieldDef} {v : DBVal}
    (hbt : fd.belongsTo = some t) (hv : getField rec f = some v) :
    ∀ {entries rels}, entries.find? (bjrQualifies rec a) = some (f, fd) →
      lookupA rels a = none →
      lookupA (bjrBelongsToLoop rec scopeName idStr base entries rels) a =
        some (bjrEntry base scopeName idStr a t v)
  | [], _, hfind, _ => by simp at hfind
  | (g, gd) :: rest, rels, hfind, hnone => by
    rw [List.find?_cons] at hfind
    cases hq : bjrQualifies rec a (g, gd) with
    | true =>
      rw [hq] at hfind
      dsimp only at hfind
      injection hfind with heq
      injection heq with h1 h2
      rw [h1, h2]
      have has : fd.as = some a := by
        unfold bjrQualifies at hq
        rw [h1, h2] at hq
        simp only [Bool.and_eq_true, beq_iff_eq] at hq
        exact hq.1.2
      rw [bjrBelongsToLoop, hbt, has, hv]
      dsimp only
      rw [if_neg (by rw [hnone]; simp)]
      refine bjrBelongsToLoop_preserve ?_
      rw [lookupA_append, hnone]
      dsimp only
      rw [lookupA_cons]
      simp
    | false =>
      rw [hq] at hfind
      dsimp only at hfind
      rw [bjrBelongsToLoop]
      cases hbt' : gd.belongsTo with
      | none =>
        dsimp only
        exact bjrBelongsToLoop_found hbt hv hfind hnone
      | some t' =>
        cases has' : gd.as with
        | none =>
          dsimp only
          exact bjrBelongsToLoop_found hbt hv hfind hnone
        | some a' =>
          cases hgf' : getField rec g with
          | none =>
            dsimp only
            exact bjrBelongsToLoop_found hbt hv hfind hnone
          | some v' =>
            dsimp only
            have hne : a' ≠ a := by
              intro hcontra
              subst hcontra
              have : bjrQualifies rec a' (g, gd) = true := by
                unfold bjrQualifies
                simp [hbt', has', hgf']
              rw [this] at hq
              cases hq
            split
            · exact bjrBelongsToLoop_found hbt hv hfind hnone
            · refine bjrBelongsToLoop_found hbt hv hfind ?_
              rw [lookupA_append, hnone]
              dsimp only
              rw [lookupA_cons, if_neg hne]
              rfl

theorem bjrPolyLoop_preserve_notkey {rec : Record} {scopeName idStr base : String}
    {a : String} :
    ∀ {entries rels}, a ∉ entries.map Prod.fst →
      lookupA (bjrPolyLoop rec scopeName idStr base entries rels) a = lookupA rels a
  | [], rels, _ => rfl
  | (rn, rd) :: rest, rels, hna => by
    have hne : rn ≠ a := by
      intro h
      exact hna (by rw [List.map_cons, h]; exact List.mem_cons_self a _)
    have hna' : a ∉ rest.map Prod.fst := by
      intro h
      exact hna (by rw [List.map_cons]; exact List.mem_cons_of_mem _ h)
    rw [bjrPolyLoop]
    split
    · dsimp only
      split
      · rw [bjrPolyLoop_preserve_notkey hna', lookupA_setKeyA_ne _ _ _ _ hne]
      · split
        · rw [bjrPolyLoop_preserve_notkey hna', lookupA_setKeyA_ne _ _ _ _ hne]
        · exact bjrPolyLoop_preserve_notkey hna'
    · exact bjrPolyLoop_preserve_notkey hna'

theorem tjrwbPolyEntry_links {rec : Record} {rd : PolyRel} :
    (tjrwbPolyEntry rec rd).links = none := by
  unfold tjrwbPolyEntry
  split
  · rfl
  · rfl

theorem tjrwbBelongsToLoop_links {rec : Record} :
    ∀ {entries rels}, (∀ p ∈ rels, (p : String × RelEntry).2.links = none) →
      ∀ p ∈ tjrwbBelongsToLoop rec entries rels, (p : String × RelEntry).2.links = none
  | [], _, h => h
  | (f, fd) :: rest, rels, h => by
    rw [tjrwbBelongsToLoop]
    cases hbt : fd.belongsTo with
    | none =>
      dsimp only
      exact tjrwbBelongsToLoop_links h
    | some t =>
      cases has : fd.as with
      | none =>
        dsimp only
        exact tjrwbBelongsToLoop_links h
      | some a =>
        dsimp only
        refine tjrwbBelongsToLoop_links ?_
        intro p hp
        rcases mem_setKeyA hp with hp | rfl
        · exact h p hp
        · cases hgf : getField rec f with
          | none => rfl
          | some v =>
            dsimp only
            split
            · rfl
            · rfl

theorem tjrwbPolyLoop_links {rec : Record} :
    ∀ {entries rels}, (∀ p ∈ rels, (p : String × RelEntry).2.links = none) →
      ∀ p ∈ tjrwbPolyLoop rec entries rels, (p : String × RelEntry).2.links = none
  | [], _, h => h
  | (rn, rd) :: rest, rels, h => by
    rw [tjrwbPolyLoop]
    split
    · refine tjrwbPolyLoop_links ?_
      intro p hp
      rcases mem_setKeyA hp with hp | rfl
      · exact h p hp
      · exact tjrwbPolyEntry_links
    · exact tjrwbPolyLoop_links h

theorem tjrwbPolyLoop_preserve_notkey {rec : Record} {a : String} :
    ∀ {entries rels}, a ∉ entries.map Prod.fst →
      lookupA (tjrwbPolyLoop rec entries rels) a = lookupA rels a
  | [], rels, _ => rfl
  | (rn, rd) :: rest, rels, hna => by
    have hne : rn ≠ a := by
      intro h
      exact hna (by rw [List.map_cons, h]; exact List.mem_cons_self a _)
    have hna' : a ∉ rest.map Prod.fst := by
      intro h
      exact hna (by rw [List.map_cons]; exact List.mem_cons_of_mem _ h)
    rw [tjrwbPolyLoop]
    split
    · rw [tjrwbPolyLoop_preserve_notkey hna', lookupA_setKeyA_ne _ _ _ _ hne]
    · exact tjrwbPolyLoop_preserve_notkey hna'

theorem tjrwbPolyLoop_found {rec : Record} {rn : String} {rd : PolyRel}
    (hp : rd.belongsToPolymorphic = true) :
    ∀ {entries rels}, (rn, rd) ∈ entries → (entries.map Prod.fst).Nodup →
      lookupA (tjrwbPolyLoop rec entries rels) rn = some (tjrwbPolyEntry rec rd)
  | [], _, hm, _ => by simp at hm
  | (g, gd) :: rest, rels, hm, hnd => by
    rw [List.map_cons, List.nodup_cons] at hnd
    rcases List.mem_cons.mp hm with heq | hm'
    · injection heq with h1 h2
      subst h1
      subst h2
      rw [tjrwbPolyLoop, if_pos hp, tjrwbPolyLoop_preserve_notkey hnd.1]
      exact lookupA_setKeyA_self rels rn (tjrwbPolyEntry rec rd)
    · have hne : g ≠ rn := by
        rintro rfl
        exact hnd.1 (List.mem_map.mpr ⟨(g, rd), hm', rfl⟩)
      rw [tjrwbPolyLoop]
      split
      · exact tjrwbPolyLoop_found hp hm' hnd.2
      · exact tjrwbPolyLoop_found hp hm' hnd.2

theorem bjrEntry_links (base scopeName idStr a t : String) (v : DBVal) :
    (bjrEntry base scopeName idStr a t v).links =
      some (mkRelLinks base scopeName idStr a) := by
  unfold bjrEntry
  split
  · rfl
  · rfl

theorem bjrEntry_data_of_ne {base scopeName idStr a t : String} {v : DBVal}
    (h : v ≠ DBVal.vNull) :
    (bjrEntry base scopeName idStr a t v).data = some ⟨DBVal.vStr t, jsString v⟩ := by
  unfold bjrEntry
  rw [if_pos h]

theorem bjrEntry_data_of_null {base scopeName idStr a t : String} {v : DBVal}
    (h : v = DBVal.vNull) : (bjrEntry base scopeName idStr a t v).data = none := by
  unfold bjrEntry
  rw [if_neg (by simp [h])]

/-! ### Claim theorems: document assembly -/

/-- **C2** (amended): in `buildJsonApiResponse`'s record processing, every
`belongsTo` field with an alias **whose foreign-key column is present in the
record and whose alias is not already populated** (by preloaded relationship
data or by a polymorphic relationship of the same name) produces a
relationships entry: linkage data `{type, id: String(fk)}` when the stored
value is non-null, `data: null` when it is null, always with self/related
links `{base}/{type}/{id}/relationships/{alias}` and
`{base}/{type}/{id}/{alias}`.  In `toJsonApiRecordWithBelongsTo` the entries
are built unconditionally but never carry links.  The original claim —
entry never omitted, always with links — is refuted by
`buildJsonApiResponse_missing_fk_counterexample`. -/
theorem buildJsonApiResponse_belongsTo_entry
    (si : SchemaInfo) (scopeName base : String) (r : RawRecord)
    (f a t : String) (fd : FieldDef) (v : DBVal)
    (hfind : si.struct.find? (bjrQualifies r.fields a) = some (f, fd))
    (hbt : fd.belongsTo = some t) (hv : getField r.fields f = some v)
    (hpre : lookupA (r.preloaded.getD []) a = none)
    (hnr : a ∉ si.rels.map Prod.fst) :
    ((bjrProcessRecord si scopeName base r).relationships ≠ none ∧
     lookupA ((bjrProcessRecord si scopeName base r).relationships.getD []) a =
       some (bjrEntry base scopeName
         (jsStringO (getField r.fields (idFieldOf si.idProperty))) a t v) ∧
     (bjrEntry base scopeName
       (jsStringO (getField r.fields (idFieldOf si.idProperty))) a t v).links =
       some (mkRelLinks base scopeName
         (jsStringO (getField r.fields (idFieldOf si.idProperty))) a) ∧
     (v ≠ DBVal.vNull →
       (bjrEntry base scopeName
         (jsStringO (getField r.fields (idFieldOf si.idProperty))) a t v).data =
         some ⟨DBVal.vStr t, jsString v⟩) ∧
     (v = DBVal.vNull →
       (bjrEntry base scopeName
         (jsStringO (getField r.fields (idFieldOf si.idProperty))) a t v).data = none)) ∧
    (∀ rels' p,
      (toJsonApiRecordWithBelongsTo si scopeName r.fields).relationships = some rels' →
      p ∈ rels' → (p : String × RelEntry).2.links = none) := by
  constructor
  · obtain ⟨rfields, rpre⟩ := r
    dsimp only at hfind hv hpre ⊢
    have h2 : lookupA (bjrPolyLoop rfields scopeName
        (jsStringO (getField rfields (idFieldOf si.idProperty))) base si.rels
        (bjrBelongsToLoop rfields scopeName
          (jsStringO (getField rfields (idFieldOf si.idProperty))) base si.struct
          (rpre.getD []))) a =
        some (bjrEntry base scopeName
          (jsStringO (getField rfields (idFieldOf si.idProperty))) a t v) := by
      rw [bjrPolyLoop_preserve_notkey hnr]
      exact bjrBelongsToLoop_found hbt hv hfind hpre
    cases rpre with
    | some pl =>
      dsimp only [Option.getD] at h2 ⊢
      have hrel : (bjrProcessRecord si scopeName base ⟨rfields, some pl⟩).relationships =
          some (bjrPolyLoop rfields scopeName
            (jsStringO (getField rfields (idFieldOf si.idProperty))) base si.rels
            (bjrBelongsToLoop rfields scopeName
              (jsStringO (getField rfields (idFieldOf si.idProperty))) base si.struct
              pl)) := rfl
      refine ⟨by rw [hrel]; simp, by rw [hrel]; exact h2,
        bjrEntry_links _ _ _ _ _ _, fun h => bjrEntry_data_of_ne h,
        fun h => bjrEntry_data_of_null h⟩
    | none =>
      dsimp only [Option.getD] at h2 ⊢
      have hne := lookupA_isEmpty_false h2
      have hrel : (bjrProcessRecord si scopeName base ⟨rfields, none⟩).relationships =
          some (bjrPolyLoop rfields scopeName
            (jsStringO (getField rfields (idFieldOf si.idProperty))) base si.rels
            (bjrBelongsToLoop rfields scopeName
              (jsStringO (getField rfields (idFieldOf si.idProperty))) base si.struct
              [])) := by
        unfold bjrProcessRecord
        dsimp only [Option.getD]
        rw [hne]
        rfl
      refine ⟨by rw [hrel]; simp, by rw [hrel]; exact h2,
        bjrEntry_links _ _ _ _ _ _, fun h => bjrEntry_data_of_ne h,
        fun h => bjrEntry_data_of_null h⟩
  · intro rels' p hrels hp
    unfold toJsonApiRecordWithBelongsTo at hrels
    dsimp only at hrels
    split at hrels
    · cases hrels
    · injection hrels with h3
      subst h3
      exact tjrwbPolyLoop_links
        (tjrwbBelongsToLoop_links (fun q hq => absurd hq (List.not_mem_nil q))) p hp

/-- **C2** counterexample to the claim as stated: `author_id` is a
`belongsTo` field with alias `author` in `bookSchema`, but for a record from
which the `author_id` column is absent, `buildJsonApiResponse`'s record
processing emits no relationships object at all — the entry is omitted. -/
theorem buildJsonApiResponse_missing_fk_counterexample :
    lookupField bookSchema "author_id" =
      some { belongsTo := some "authors", as := some "author",
             hidden := false, normallyHidden := false } ∧
    (bjrProcessRecord bookSchema "books" "" ⟨bookRecordNoFk, none⟩).relationships = none :=
  ⟨by decide, rfl⟩

/-- Witness for the amended C2 at a concrete record with a present, non-null
foreign key. -/
theorem buildJsonApiResponse_belongsTo_entry_witness :
    lookupA ((bjrProcessRecord bookSchema "books" "/api"
        ⟨bookRecord, none⟩).relationships.getD []) "author" =
      some (bjrEntry "/api" "books"
        (jsStringO (getField bookRecord (idFieldOf bookSchema.idProperty)))
        "author" "authors" (DBVal.vInt 7)) ∧
    (bjrEntry "/api" "books"
      (jsStringO (getField bookRecord (idFieldOf bookSchema.idProperty)))
      "author" "authors" (DBVal.vInt 7)).links =
      some (mkRelLinks "/api" "books"
        (jsStringO (getField bookRecord (idFieldOf bookSchema.idProperty))) "author") ∧
    (bjrEntry "/api" "books"
      (jsStringO (getField bookRecord (idFieldOf bookSchema.idProperty)))
      "author" "authors" (DBVal.vInt 7)).data =
      some ⟨DBVal.vStr "authors", jsString (DBVal.vInt 7)⟩ := by
  have h := buildJsonApiResponse_belongsTo_entry bookSchema "books" "/api"
    ⟨bookRecord, none⟩ "author_id" "author" "authors"
    { belongsTo := some "authors", as := some "author",
      hidden := false, normallyHidden := false } (DBVal.vInt 7)
    (by decide) (by decide) (by decide) (by decide) (by decide)
  exact ⟨h.1.2.1, h.1.2.2.1, h.1.2.2.2.1 (by decide)⟩

/-- **C4** (amended): for a polymorphic `belongsTo` relationship, when both
the stored `typeField` and `idField` values are **truthy** the relationship
data is `{type: typeValue, id: String(idValue)}`; in every other case —
including a set `typeField` with null `idField`, but also non-null falsy
values such as the id `0` — the data is null, with no error.  The original
claim (data built whenever both values are non-null) is refuted by
`toJsonApiRecordWithBelongsTo_zero_polymorphic_id_counterexample`. -/
theorem toJsonApiRecordWithBelongsTo_polymorphic
    (si : SchemaInfo) (scopeName : String) (record : Record)
    (rn tf idf : String) (rd : PolyRel) (tv iv : DBVal)
    (hm : (rn, rd) ∈ si.rels) (hnd : (si.rels.map Prod.fst).Nodup)
    (hp : rd.belongsToPolymorphic = true)
    (htf : rd.typeField = some tf) (hidf : rd.idField = some idf)
    (htv : getField record tf = some tv) (hiv : getField record idf = some iv) :
    (toJsonApiRecordWithBelongsTo si scopeName record).relationships ≠ none ∧
    lookupA ((toJsonApiRecordWithBelongsTo si scopeName record).relationships.getD []) rn =
      some (tjrwbPolyEntry record rd) ∧
    ((truthy tv && truthy iv) = true →
      (tjrwbPolyEntry record rd).data = some ⟨tv, jsString iv⟩) ∧
    ((truthy tv && truthy iv) = false →
      (tjrwbPolyEntry record rd).data = none) := by
  have h2 : lookupA (tjrwbPolyLoop record si.rels
      (tjrwbBelongsToLoop record si.struct [])) rn = some (tjrwbPolyEntry record rd) :=
    tjrwbPolyLoop_found hp hm hnd
  have hrel : (toJsonApiRecordWithBelongsTo si scopeName record).relationships =
      some (tjrwbPolyLoop record si.rels (tjrwbBelongsToLoop record si.struct [])) := by
    unfold toJsonApiRecordWithBelongsTo
    dsimp only
    rw [lookupA_isEmpty_false h2]
    rfl
  refine ⟨by rw [hrel]; simp, by rw [hrel]; exact h2, ?_, ?_⟩
  · intro htr
    unfold tjrwbPolyEntry
    rw [htf, hidf]
    dsimp only [getFieldO]
    rw [htv, hiv]
    dsimp only [truthyO]
    rw [if_pos htr]
    rfl
  · intro htr
    unfold tjrwbPolyEntry
    rw [htf, hidf]
    dsimp only [getFieldO]
    rw [htv, hiv]
    dsimp only [truthyO]
    rw [if_neg (by simp [htr])]

/-- **C4** counterexample to the claim as stated: both polymorphic values of
`bookRecordZero` are non-null (`"articles"` and the integer `0`), yet every
relationship in the assembled resource has `data = null`, because JS
truthiness treats `0` as falsy. -/
theorem toJsonApiRecordWithBelongsTo_zero_polymorphic_id_counterexample :
    getField bookRecordZero "commentable_type" = some (DBVal.vStr "articles") ∧
    getField bookRecordZero "commentable_id" = some (DBVal.vInt 0) ∧
    DBVal.vStr "articles" ≠ DBVal.vNull ∧
    DBVal.vInt 0 ≠ DBVal.vNull ∧
    (toJsonApiRecordWithBelongsTo bookSchema "books" bookRecordZero).relationships =
      some [("author", { data := none, links := none }),
            ("owner", { data := none, links := none }),
            ("commentable", { data := none, links := none })] :=
  ⟨by decide, by decide, by decide, by decide, rfl⟩

/-- Witness for the amended C4: truthy type/id pair yields linkage data;
type set with null id yields `data: null` without error. -/
theorem toJsonApiRecordWithBelongsTo_polymorphic_witness :
    lookupA ((toJsonApiRecordWithBelongsTo bookSchema "books"
        bookRecord).relationships.getD []) "commentable" =
      some (tjrwbPolyEntry bookRecord
        { belongsToPolymorphic := true, typeField := some "commentable_type",
          idField := some "commentable_id" }) ∧
    (tjrwbPolyEntry bookRecord
      { belongsToPolymorphic := true, typeField := some "commentable_type",
        idField := some "commentable_id" }).data =
      some ⟨DBVal.vStr "articles", jsString (DBVal.vInt 5)⟩ ∧
    lookupA ((toJsonApiRecordWithBelongsTo bookSchema "books"
        bookRecordNullPoly).relationships.getD []) "commentable" =
      some (tjrwbPolyEntry bookRecordNullPoly
        { belongsToPolymorphic := true, typeField := some "commentable_type",
          idField := some "commentable_id" }) ∧
    (tjrwbPolyEntry bookRecordNullPoly
      { belongsToPolymorphic := true, typeField := some "commentable_type",
        idField := some "commentable_id" }).data = none := by
  have h1 := toJsonApiRecordWithBelongsTo_polymorphic bookSchema "books" bookRecord
    "commentable" "commentable_type" "commentable_id"
    { belongsToPolymorphic := true, typeField := some "commentable_type",
      idField := some "commentable_id" } (DBVal.vStr "articles") (DBVal.vInt 5)
    (by decide) (by decide) (by decide) (by decide) (by decide) (by decide) (by decide)
  have h2 := toJsonApiRecordWithBelongsTo_polymorphic bookSchema "books" bookRecordNullPoly
    "commentable" "commentable_type" "commentable_id"
    { belongsToPolymorphic := true, typeField := some "commentable_type",
      idField := some "commentable_id" } (DBVal.vStr "articles") DBVal.vNull
    (by decide) (by decide) (by decide) (by decide) (by decide) (by decide) (by decide)
  exact ⟨h1.2.1, h1.2.2.1 (by decide), h2.2.1, h2.2.2.2 (by decide)⟩

/-! ### Lemmas about processBelongsToRelationships -/

theorem pbrLoop_preserve_notkey {inputRels : List (String × InputRel)} {f : String} :
    ∀ {entries acc}, f ∉ entries.map Prod.fst →
      lookupA (pbrLoop inputRels entries acc) f = lookupA acc f
  | [], _, _ => rfl
  | (g, gd) :: rest, acc, hna => by
    have hne : g ≠ f := by
      intro h
      exact hna (by rw [List.map_cons, h]; exact List.mem_cons_self f _)
    have hna' : f ∉ rest.map Prod.fst := by
      intro h
      exact hna (by rw [List.map_cons]; exact List.mem_cons_of_mem _ h)
    rw [pbrLoop]
    cases hbt : gd.belongsTo with
    | none =>
      dsimp only
      exact pbrLoop_preserve_notkey hna'
    | some t =>
      cases has : gd.as with
      | none =>
        dsimp only
        exact pbrLoop_preserve_notkey hna'
      | some a =>
        cases hin : lookupA inputRels a with
        | none =>
          dsimp only
          rw [hin]
          dsimp only
          exact pbrLoop_preserve_notkey hna'
        | some relData =>
          dsimp only
          rw [hin]
          dsimp only
          rw [pbrLoop_preserve_notkey hna', lookupA_setKeyA_ne _ _ _ _ hne]

theorem pbrLoop_found {inputRels : List (String × InputRel)} {f a : String}
    {fd : FieldDef} {relData : InputRel} (hbt : fd.belongsTo.isSome)
    (has : fd.as = some a) (hin : lookupA inputRels a = some relData) :
    ∀ {entries acc}, (f, fd) ∈ entries → (entries.map Prod.fst).Nodup →
      lookupA (pbrLoop inputRels entries acc) f = some (fkValueOf relData)
  | [], _, hm, _ => by simp at hm
  | (g, gd) :: rest, acc, hm, hnd => by
    rw [List.map_cons, List.nodup_cons] at hnd
    rcases List.mem_cons.mp hm with heq | hm'
    · injection heq with h1 h2
      rw [h1]
      rw [h2] at hbt has
      rcases Option.isSome_iff_exists.mp hbt with ⟨t, hbt'⟩
      rw [pbrLoop, hbt', has]
      dsimp only
      rw [hin]
      dsimp only
      rw [pbrLoop_preserve_notkey hnd.1]
      exact lookupA_setKeyA_self acc g (fkValueOf relData)
    · have hne : g ≠ f := by
        rintro rfl
        exact hnd.1 (List.mem_map.mpr ⟨(g, fd), hm', rfl⟩)
      rw [pbrLoop]
      cases hbt' : gd.belongsTo with
      | none =>
        dsimp only
        exact pbrLoop_found hbt has hin hm' hnd.2
      | some t' =>
        cases has' : gd.as with
        | none =>
          dsimp only
          exact pbrLoop_found hbt has hin hm' hnd.2
        | some a' =>
          cases hin' : lookupA inputRels a' with
          | none =>
            dsimp only
            rw [hin']
            dsimp only
            exact pbrLoop_found hbt has hin hm' hnd.2
          | some relData' =>
            dsimp only
            rw [hin']
            dsimp only
            exact pbrLoop_found hbt has hin hm' hnd.2

theorem pbrLoop_skip {inputRels : List (String × InputRel)} {f a : String}
    {fd : FieldDef} (has : fd.as = some a) (hin : lookupA inputRels a = none) :
    ∀ {entries acc}, (f, fd) ∈ entries → (entries.map Prod.fst).Nodup →
      lookupA (pbrLoop inputRels entries acc) f = lookupA acc f
  | [], _, hm, _ => by simp at hm
  | (g, gd) :: rest, acc, hm, hnd => by
    rw [List.map_cons, List.nodup_cons] at hnd
    rcases List.mem_cons.mp hm with heq | hm'
    · injection heq with h1 h2
      rw [h1]
      rw [h2] at has
      rw [pbrLoop]
      cases hbt' : gd.belongsTo with
      | none =>
        dsimp only
        rw [pbrLoop_preserve_notkey hnd.1]
      | some t =>
        rw [has]
        dsimp only
        rw [hin]
        dsimp only
        rw [pbrLoop_preserve_notkey hnd.1]
    · have hne : g ≠ f := by
        rintro rfl
        exact hnd.1 (List.mem_map.mpr ⟨(g, fd), hm', rfl⟩)
      rw [pbrLoop]
      cases hbt' : gd.belongsTo with
      | none =>
        dsimp only
        exact pbrLoop_skip has hin hm' hnd.2
      | some t' =>
        cases has' : gd.as with
        | none =>
          dsimp only
          exact pbrLoop_skip has hin hm' hnd.2
        | some a' =>
          cases hin' : lookupA inputRels a' with
          | none =>
            dsimp only
            rw [hin']
            dsimp only
            exact pbrLoop_skip has hin hm' hnd.2
          | some relData' =>
            dsimp only
            rw [hin']
            dsimp only
            rw [pbrLoop_skip has hin hm' hnd.2, lookupA_setKeyA_ne _ _ _ _ hne]

theorem pbrLoop_sound {inputRels : List (String × InputRel)} :
    ∀ {entries acc} {f : String} {w : DBVal}, (f, w) ∈ pbrLoop inputRels entries acc →
      (f, w) ∈ acc ∨ ∃ (fd : FieldDef) (a : String) (relData : InputRel),
        (f, fd) ∈ entries ∧ fd.belongsTo.isSome ∧ fd.as = some a ∧
        lookupA inputRels a = some relData
  | [], _, _, _, hx => Or.inl hx
  | (g, gd) :: rest, acc, f, w, hx => by
    rw [pbrLoop] at hx
    cases hbt : gd.belongsTo with
    | none =>
      rw [hbt] at hx
      dsimp only at hx
      rcases pbrLoop_sound hx with hin | ⟨fd, a, relData, hm, h1, h2, h3⟩
      · exact Or.inl hin
      · exact Or.inr ⟨fd, a, relData, List.mem_cons_of_mem _ hm, h1, h2, h3⟩
    | some t =>
      rw [hbt] at hx
      cases has : gd.as with
      | none =>
        rw [has] at hx
        dsimp only at hx
        rcases pbrLoop_sound hx with hin | ⟨fd, a, relData, hm, h1, h2, h3⟩
        · exact Or.inl hin
        · exact Or.inr ⟨fd, a, relData, List.mem_cons_of_mem _ hm, h1, h2, h3⟩
      | some a' =>
        rw [has] at hx
        dsimp only at hx
        cases hin' : lookupA inputRels a' with
        | none =>
          rw [hin'] at hx
          dsimp only at hx
          rcases pbrLoop_sound hx with hin | ⟨fd, a, relData, hm, h1, h2, h3⟩
          · exact Or.inl hin
          · exact Or.inr ⟨fd, a, relData, List.mem_cons_of_mem _ hm, h1, h2, h3⟩
        | some relData' =>
          rw [hin'] at hx
          dsimp only at hx
          rcases pbrLoop_sound hx with hin | ⟨fd, a, relData, hm, h1, h2, h3⟩
          · rcases mem_setKeyA hin with hin | heq
            · exact Or.inl hin
            · injection heq with h1 h2
              subst h1
              exact Or.inr ⟨gd, a', relData', List.mem_cons_self _ _,
                by rw [hbt]; rfl, has, hin'⟩
          · exact Or.inr ⟨fd, a, relData, List.mem_cons_of_mem _ hm, h1, h2, h3⟩

theorem fkValueOf_of_data_null {relData : InputRel} (h : relData.data = none) :
    fkValueOf relData = DBVal.vNull := by
  unfold fkValueOf
  rw [h]

theorem fkValueOf_of_truthy_id {relData : InputRel} {rid : ResIdIn} {w : DBVal}
    (h1 : relData.data = some rid) (h2 : rid.id = some w) (h3 : truthy w = true) :
    fkValueOf relData = w := by
  unfold fkValueOf
  rw [h1]
  dsimp only
  rw [h2]
  dsimp only
  rw [if_pos h3]

/-- **C10** (amended): the foreign-key update map built by
`processBelongsToRelationships` has an entry exactly for the `belongsTo`
fields whose relationship alias appears in the input's relationships object:
a present relationship with `data: null` maps the foreign key to null, a
present relationship with a resource identifier maps it to the identifier's
id **when that id is truthy** (a falsy id — null, missing, `0`, `""` — maps
to null, per `relData.data?.id || null`), and an absent alias leaves no
entry.  The original claim (the id is always taken verbatim) is refuted by
`processBelongsToRelationships_zero_id_counterexample`. -/
theorem processBelongsToRelationships_entries
    (si : SchemaInfo) (inputRels : List (String × InputRel))
    (hnd : (si.struct.map Prod.fst).Nodup) :
    (∀ f fd a relData, (f, fd) ∈ si.struct → fd.belongsTo.isSome → fd.as = some a →
      lookupA inputRels a = some relData →
      lookupA (processBelongsToRelationships si (some inputRels)) f =
        some (fkValueOf relData)) ∧
    (∀ f fd a, (f, fd) ∈ si.struct → fd.belongsTo.isSome → fd.as = some a →
      lookupA inputRels a = none →
      lookupA (processBelongsToRelationships si (some inputRels)) f = none) ∧
    (∀ f w, (f, w) ∈ processBelongsToRelationships si (some inputRels) →
      ∃ (fd : FieldDef) (a : String) (relData : InputRel),
        (f, fd) ∈ si.struct ∧ fd.belongsTo.isSome ∧ fd.as = some a ∧
        lookupA inputRels a = some relData) ∧
    (∀ relData : InputRel, relData.data = none → fkValueOf relData = DBVal.vNull) ∧
    (∀ (relData : InputRel) (rid : ResIdIn) (w : DBVal), relData.data = some rid →
      rid.id = some w → truthy w = true → fkValueOf relData = w) ∧
    processBelongsToRelationships si none = [] := by
  refine ⟨?_, ?_, ?_, ?_, ?_, rfl⟩
  · intro f fd a relData hm hbt has hin
    exact pbrLoop_found hbt has hin hm hnd
  · intro f fd a hm hbt has hin
    rw [show processBelongsToRelationships si (some inputRels) =
      pbrLoop inputRels si.struct [] from rfl, pbrLoop_skip has hin hm hnd]
    rfl
  · intro f w hx
    rcases pbrLoop_sound hx with hin | hgood
    · simp at hin
    · exact hgood
  · exact fun relData h => fkValueOf_of_data_null h
  · exact fun relData rid w h1 h2 h3 => fkValueOf_of_truthy_id h1 h2 h3

/-- **C10** counterexample to the claim as stated: an input relationship
whose resource identifier has the (falsy) id `0` is mapped to a null
foreign key, not to `0`. -/
theorem processBelongsToRelationships_zero_id_counterexample :
    processBelongsToRelationships bookSchema
      (some [("author",
        { data := some { type := "authors", id := some (DBVal.vInt 0) } })]) =
      [("author_id", DBVal.vNull)] ∧
    DBVal.vInt 0 ≠ DBVal.vNull :=
  ⟨rfl, by decide⟩

/-- Witness for the amended C10: a truthy string id is copied into the
foreign-key map, and a `belongsTo` field whose alias is absent from the
input gets no entry. -/
theorem processBelongsToRelationships_entries_witness :
    lookupA (processBelongsToRelationships bookSchema
      (some [("author",
        { data := some { type := "authors", id := some (DBVal.vStr "123") } })]))
      "author_id" = some (DBVal.vStr "123") ∧
    lookupA (processBelongsToRelationships bookSchema
      (some [("author",
        { data := some { type := "authors", id := some (DBVal.vStr "123") } })]))
      "owner_id" = none := by
  have h := processBelongsToRelationships_entries bookSchema
    [("author", { data := some { type := "authors", id := some (DBVal.vStr "123") } })]
    (by decide)
  constructor
  · have h1 := h.1 "author_id"
      { belongsTo := some "authors", as := some "author",
        hidden := false, normallyHidden := false } "author"
      { data := some { type := "authors", id := some (DBVal.vStr "123") } }
      (by decide) (by decide) (by decide) (by decide)
    rw [h1, h.2.2.2.2.1
      { data := some { type := "authors", id := some (DBVal.vStr "123") } }
      { type := "authors", id := some (DBVal.vStr "123") } (DBVal.vStr "123")
      rfl rfl (by decide)]
  · exact h.2.1 "owner_id"
      { belongsTo := some "people", as := some "owner",
        hidden := true, normallyHidden := false } "owner"
      (by decide) (by decide) (by decide) (by decide)

/-! ### Lemmas about deleteRelationship -/

theorem lookupA_none_not_key {α : Type} :
    ∀ {l : List (String × α)} {k : String}, lookupA l k = none →
      ∀ p ∈ l, (p : String × α).1 ≠ k
  | [], _, _, p, hp => by simp at hp
  | q :: rest, k, h, p, hp => by
    rw [lookupA_cons] at h
    by_cases hq : q.1 = k
    · rw [if_pos hq] at h
      cases h
    · rw [if_neg hq] at h
      rcases List.mem_cons.mp hp with rfl | hp'
      · exact hq
      · exact lookupA_none_not_key h p hp'

theorem mem_setKeyA_key_val {α : Type} {l : List (String × α)} {k : String} {v : α} :
    ∀ p ∈ setKeyA l k v, (p : String × α).1 = k → (p : String × α).2 = v := by
  intro p hp hpk
  unfold setKeyA at hp
  split at hp
  · rcases List.mem_map.mp hp with ⟨q, hq, hq2⟩
    by_cases hqk : q.1 = k
    · rw [if_pos hqk] at hq2
      rw [← hq2]
    · rw [if_neg hqk] at hq2
      rw [← hq2] at hpk
      exact absurd hpk hqk
  · rcases List.mem_append.mp hp with hq | hq
    · rename_i hnone
      exact absurd hpk
        (lookupA_none_not_key (Option.not_isSome_iff_eq_none.mp hnone) p hq)
    · simp at hq
      rw [hq]

theorem setKeyA_map_id {α : Type} {l : List (String × α)} {k : String} {v : α}
    (h : ∀ p ∈ l, (p : String × α).1 = k → (p : String × α).2 = v) :
    l.map (fun p => if p.1 = k then (k, v) else p) = l := by
  induction l with
  | nil => rfl
  | cons q rest ih =>
    rw [List.map_cons]
    by_cases hq : q.1 = k
    · rw [if_pos hq]
      have hqv : q = (k, v) := Prod.ext_iff.mpr ⟨hq, h q (List.mem_cons_self q rest) hq⟩
      rw [ih (fun p hp hpk => h p (List.mem_cons_of_mem q hp) hpk), ← hqv]
    · rw [if_neg hq, ih (fun p hp hpk => h p (List.mem_cons_of_mem q hp) hpk)]

theorem setKeyA_idem {α : Type} (l : List (String × α)) (k : String) (v : α) :
    setKeyA (setKeyA l k v) k v = setKeyA l k v := by
  have hs : (lookupA (setKeyA l k v) k).isSome = true := by
    rw [lookupA_setKeyA_self]
    rfl
  conv_lhs => rw [show setKeyA (setKeyA l k v) k v =
    if (lookupA (setKeyA l k v) k).isSome then
      (setKeyA l k v).map (fun p => if p.1 = k then (k, v) else p)
    else setKeyA l k v ++ [(k, v)] from rfl]
  rw [if_pos hs]
  exact setKeyA_map_id mem_setKeyA_key_val

namespace DelRel

theorem pivotDeleteLoop_ok {localKey otherKey : String} {pid : DBVal} :
    ∀ {ids : List DBVal} {table : List Record},
      pivotDeleteLoop localKey otherKey pid (fun _ => false) ids table =
        .ok (table.filter (fun r => !(getField r localKey == some pid &&
          ids.any (fun tid => getField r otherKey == some tid))))
  | [], table => by
    rw [pivotDeleteLoop]
    congr 1
    simp
  | tid :: rest, table => by
    rw [pivotDeleteLoop, if_neg (by simp)]
    rw [pivotDeleteLoop_ok]
    congr 1
    unfold pivotDeleteOne
    rw [List.filter_filter]
    refine List.filter_congr ?_
    intro r _
    rw [List.any_cons]
    cases hm : getField r localKey == some pid <;>
      cases hx : getField r otherKey == some tid <;>
        cases hy : rest.any (fun t => getField r otherKey == some t) <;> rfl

theorem getField_setField_ne {r : Record} {fk k : String} {v : DBVal} (h : fk ≠ k) :
    getField (setField r fk v) k = getField r k :=
  lookupA_setKeyA_ne r fk k v h

theorem setField_idem (r : Record) (fk : String) (v : DBVal) :
    setField (setField r fk v) fk v = setField r fk v :=
  setKeyA_idem r fk v

theorem patchNullLoop_ok {idProp fk : String} (hne : fk ≠ idProp) :
    ∀ {ids : List DBVal} {table : List Record},
      patchNullLoop idProp fk (fun _ => false) ids table =
        .ok (table.map (fun r =>
          if ids.any (fun tid => getField r idProp == some tid)
          then setField r fk DBVal.vNull else r))
  | [], table => by
    rw [patchNullLoop]
    congr 1
    simp
  | tid :: rest, table => by
    rw [patchNullLoop, if_neg (by simp)]
    rw [patchNullLoop_ok hne]
    congr 1
    unfold patchNullOne
    rw [List.map_map]
    refine List.map_congr_left ?_
    intro r _
    dsimp only [Function.comp]
    by_cases hm : (getField r idProp == some tid) = true
    · rw [if_pos hm, List.any_cons, hm]
      have hg : getField (setField r fk DBVal.vNull) idProp = getField r idProp :=
        getField_setField_ne hne
      rw [Bool.true_or, if_pos rfl]
      by_cases hb : rest.any (fun t => getField (setField r fk DBVal.vNull) idProp
          == some t) = true
      · rw [if_pos hb, setField_idem]
      · rw [if_neg hb]
    · rw [if_neg hm, List.any_cons, Bool.not_eq_true] at *
      rw [hm, Bool.false_or]

theorem pivotDeleteLoop_error_at {localKey otherKey : String} {pid : DBVal}
    {failsOn : DBVal → Bool} {bad : DBVal} (hbad : failsOn bad = true) :
    ∀ {pre post : List DBVal} {table : List Record},
      (∀ x ∈ pre, failsOn x = false) →
      pivotDeleteLoop localKey otherKey pid failsOn (pre ++ bad :: post) table = .error ()
  | [], post, table, _ => by
    rw [List.nil_append, pivotDeleteLoop, if_pos hbad]
  | x :: pre, post, table, hpre => by
    rw [List.cons_append, pivotDeleteLoop,
      if_neg (by rw [hpre x (List.mem_cons_self x pre)]; simp)]
    exact pivotDeleteLoop_error_at hbad
      (fun y hy => hpre y (List.mem_cons_of_mem x hy))

theorem patchNullLoop_error_at {idProp fk : String}
    {failsOn : DBVal → Bool} {bad : DBVal} (hbad : failsOn bad = true) :
    ∀ {pre post : List DBVal} {table : List Record},
      (∀ x ∈ pre, failsOn x = false) →
      patchNullLoop idProp fk failsOn (pre ++ bad :: post) table = .error ()
  | [], post, table, _ => by
    rw [List.nil_append, patchNullLoop, if_pos hbad]
  | x :: pre, post, table, hpre => by
    rw [List.cons_append, patchNullLoop,
      if_neg (by rw [hpre x (List.mem_cons_self x pre)]; simp)]
    exact patchNullLoop_error_at hbad
      (fun y hy => hpre y (List.mem_cons_of_mem x hy))

theorem visible_eq_of_error {st : DBState} {rels : List (String × RelDef)}
    {relName idProp : String} {pid : DBVal} {payload : Option (List DBVal)}
    {failsOn : DBVal → Bool} {e : DelErr}
    (h : deleteRelationshipMethod st rels relName idProp pid payload failsOn = .error e) :
    deleteRelationshipVisible st rels relName idProp pid payload failsOn = st := by
  unfold deleteRelationshipVisible
  rw [h]

/-! ### Claim theorems: deleteRelationship -/

/-- **C7** (confirmed): a successful `deleteRelationship` call on a
many-to-many relationship deletes exactly the pivot rows matching
(parent id, listed target id); all other pivot rows and both endpoint
tables are unchanged (the result state only replaces `pivotTable` with the
filtered table).  For a direct hasMany relationship the listed children's
foreign-key column is set to null and no target row is deleted (the target
table is a same-length map; pivot and parent tables are unchanged). -/
theorem deleteRelationship_frame
    (st : DBState) (rels : List (String × RelDef)) (relName idProp : String)
    (pid : DBVal) (ids : List DBVal) :
    (∀ rd m2m, findRelationshipDefinition rels relName = some rd →
      rd.manyToMany = some m2m →
      dataExists st.parentTable idProp pid = true →
      deleteRelationshipMethod st rels relName idProp pid (some ids) (fun _ => false) =
        .ok { st with pivotTable := st.pivotTable.filter (fun r =>
          !(getField r m2m.foreignKey == some pid &&
            ids.any (fun tid => getField r m2m.otherKey == some tid))) }) ∧
    (∀ rd tt fk, findRelationshipDefinition rels relName = some rd →
      rd.manyToMany = none → rd.through = none → rd.hasMany = some tt →
      rd.foreignKey = some fk → fk ≠ idProp →
      dataExists st.parentTable idProp pid = true →
      deleteRelationshipMethod st rels relName idProp pid (some ids) (fun _ => false) =
        .ok { st with targetTable := st.targetTable.map (fun r =>
          if ids.any (fun tid => getField r idProp == some tid)
          then setField r fk DBVal.vNull else r) } ∧
      (st.targetTable.map (fun r =>
          if ids.any (fun tid => getField r idProp == some tid)
          then setField r fk DBVal.vNull else r)).length = st.targetTable.length) := by
  constructor
  · intro rd m2m hrd hm2m hex
    unfold deleteRelationshipMethod
    rw [hrd]
    dsimp only
    rw [hm2m]
    simp only [Option.isNone_some, Bool.and_false]
    rw [if_neg (by simp)]
    rw [hex]
    rw [if_neg (by simp)]
    rw [if_pos (by simp)]
    rw [pivotDeleteLoop_ok]
  · intro rd tt fk hrd hmm hth hhm hfk hne hex
    refine ⟨?_, List.length_map _ _⟩
    unfold deleteRelationshipMethod
    rw [hrd]
    dsimp only
    rw [hhm, hmm, hth, hfk]
    simp only [Option.isNone_some, Bool.false_and]
    rw [if_neg (by simp)]
    rw [hex]
    rw [if_neg (by simp)]
    rw [if_neg (by simp)]
    dsimp only [Option.getD]
    rw [patchNullLoop_ok hne]

/-- Witness for C7 at the concrete `pivotFixture`: deleting two listed
author associations of book 1, and nulling one chapter's foreign key. -/
theorem deleteRelationship_frame_witness :
    deleteRelationshipMethod pivotFixture delRels "authors" "id" (DBVal.vInt 1)
      (some [DBVal.vInt 10, DBVal.vInt 11]) (fun _ => false) =
      .ok { pivotFixture with pivotTable := pivotFixture.pivotTable.filter (fun r =>
        !(getField r "book_id" == some (DBVal.vInt 1) &&
          [DBVal.vInt 10, DBVal.vInt 11].any
            (fun tid => getField r "author_id" == some tid))) } ∧
    deleteRelationshipMethod pivotFixture delRels "chapters" "id" (DBVal.vInt 1)
      (some [DBVal.vInt 10]) (fun _ => false) =
      .ok { pivotFixture with targetTable := pivotFixture.targetTable.map (fun r =>
        if [DBVal.vInt 10].any (fun tid => getField r "id" == some tid)
        then setField r "book_id" DBVal.vNull else r) } := by
  have h1 := deleteRelationship_frame pivotFixture delRels "authors" "id" (DBVal.vInt 1)
    [DBVal.vInt 10, DBVal.vInt 11]
  have h2 := deleteRelationship_frame pivotFixture delRels "chapters" "id" (DBVal.vInt 1)
    [DBVal.vInt 10]
  exact ⟨h1.1 bookAuthorsRel
      { through := "book_authors", foreignKey := "book_id", otherKey := "author_id" }
      (by decide) (by decide) (by decide),
    (h2.2 chaptersRel "chapters" "book_id" (by decide) (by decide) (by decide)
      (by decide) (by decide) (by decide) (by decide)).1⟩

/-- **C8** (confirmed): every failing step of `deleteRelationshipMethod` —
unknown relationship, to-one relationship, non-array payload, missing
parent record, or a storage error partway through the delete loop — leaves
the visible state exactly as before the call (the rollback performed by the
error handler, modelled from the spec); in the storage case the method
returns the storage error even though earlier per-identifier deletes had
already run inside the transaction. -/
theorem deleteRelationship_rollback
    (st : DBState) (rels : List (String × RelDef)) (relName idProp : String)
    (pid : DBVal) (payload : Option (List DBVal)) (failsOn : DBVal → Bool) :
    (findRelationshipDefinition rels relName = none →
      deleteRelationshipVisible st rels relName idProp pid payload failsOn = st) ∧
    (∀ rd, findRelationshipDefinition rels relName = some rd →
      rd.hasMany = none → rd.manyToMany = none →
      deleteRelationshipVisible st rels relName idProp pid payload failsOn = st) ∧
    (payload = none →
      deleteRelationshipVisible st rels relName idProp pid payload failsOn = st) ∧
    (dataExists st.parentTable idProp pid = false →
      deleteRelationshipVisible st rels relName idProp pid payload failsOn = st) ∧
    (∀ rd ids pre bad post, findRelationshipDefinition rels relName = some rd →
      (rd.hasMany.isNone && rd.manyToMany.isNone) = false →
      payload = some ids → dataExists st.parentTable idProp pid = true →
      ids = pre ++ bad :: post → (∀ x ∈ pre, failsOn x = false) → failsOn bad = true →
      deleteRelationshipMethod st rels relName idProp pid payload failsOn =
        .error DelErr.storage ∧
      deleteRelationshipVisible st rels relName idProp pid payload failsOn = st) := by
  refine ⟨?_, ?_, ?_, ?_, ?_⟩
  · intro hf
    refine visible_eq_of_error (e := DelErr.relationshipNotFound) ?_
    unfold deleteRelationshipMethod
    rw [hf]
  · intro rd hf hhm hmm
    refine visible_eq_of_error (e := DelErr.toOneRelationship) ?_
    unfold deleteRelationshipMethod
    rw [hf]
    dsimp only
    rw [hhm, hmm]
    rw [if_pos (by simp)]
  · intro hpay
    subst hpay
    cases hf : findRelationshipDefinition rels relName with
    | none =>
      refine visible_eq_of_error (e := DelErr.relationshipNotFound) ?_
      unfold deleteRelationshipMethod
      rw [hf]
    | some rd =>
      by_cases hto : (rd.hasMany.isNone && rd.manyToMany.isNone) = true
      · refine visible_eq_of_error (e := DelErr.toOneRelationship) ?_
        unfold deleteRelationshipMethod
        rw [hf]
        dsimp only
        rw [if_pos hto]
      · refine visible_eq_of_error (e := DelErr.payloadNotArray) ?_
        unfold deleteRelationshipMethod
        rw [hf]
        dsimp only
        rw [if_neg hto]
  · intro hex
    cases hf : findRelationshipDefinition rels relName with
    | none =>
      refine visible_eq_of_error (e := DelErr.relationshipNotFound) ?_
      unfold deleteRelationshipMethod
      rw [hf]
    | some rd =>
      by_cases hto : (rd.hasMany.isNone && rd.manyToMany.isNone) = true
      · refine visible_eq_of_error (e := DelErr.toOneRelationship) ?_
        unfold deleteRelationshipMethod
        rw [hf]
        dsimp only
        rw [if_pos hto]
      · cases payload with
        | none =>
          refine visible_eq_of_error (e := DelErr.payloadNotArray) ?_
          unfold deleteRelationshipMethod
          rw [hf]
          dsimp only
          rw [if_neg hto]
        | some ids =>
          refine visible_eq_of_error (e := DelErr.parentNotFound) ?_
          unfold deleteRelationshipMethod
          rw [hf]
          dsimp only
          rw [if_neg hto]
          rw [hex]
          rw [if_pos (by simp)]
  · intro rd ids pre bad post hf hto hpay hex hids hpre hbad
    subst hpay
    subst hids
    have herr : deleteRelationshipMethod st rels relName idProp pid
        (some (pre ++ bad :: post)) failsOn = .error DelErr.storage := by
      unfold deleteRelationshipMethod
      rw [hf]
      dsimp only
      rw [hto]
      rw [if_neg (by simp)]
      rw [hex]
      rw [if_neg (by simp)]
      split
      · rw [pivotDeleteLoop_error_at hbad hpre]
      · rw [patchNullLoop_error_at hbad hpre]
    exact ⟨herr, visible_eq_of_error herr⟩

/-- Witness for C8: with a storage failure on the second listed identifier,
the many-to-many delete loop aborts with a storage error and the visible
state is exactly the pre-call fixture. -/
theorem deleteRelationship_rollback_witness :
    deleteRelationshipMethod pivotFixture delRels "authors" "id" (DBVal.vInt 1)
      (some [DBVal.vInt 10, DBVal.vInt 11]) (fun v => v == DBVal.vInt 11) =
      .error DelErr.storage ∧
    deleteRelationshipVisible pivotFixture delRels "authors" "id" (DBVal.vInt 1)
      (some [DBVal.vInt 10, DBVal.vInt 11]) (fun v => v == DBVal.vInt 11) =
      pivotFixture := by
  have h := deleteRelationship_rollback pivotFixture delRels "authors" "id" (DBVal.vInt 1)
    (some [DBVal.vInt 10, DBVal.vInt 11]) (fun v => v == DBVal.vInt 11)
  exact h.2.2.2.2 bookAuthorsRel [DBVal.vInt 10, DBVal.vInt 11] [DBVal.vInt 10]
    (DBVal.vInt 11) [] (by decide) (by decide) rfl (by decide) rfl
    (by decide) (by decide)

end DelRel

end JsonRestApi

